import Mathlib

set_option maxHeartbeats 1000000

/-! Verification model of the OpenMCT telemetry polling controller
(`TelemetryController.js`) and the JSON tree export action
(`ExportAsJSONAction`).

JavaScript objects used as string-keyed dictionaries are modelled as
association lists with first-match lookup and update-or-append
assignment.  Asynchronous promise settlements and scheduler timeouts are
modelled as explicit environment-driven machine steps.  Opaque payloads,
metadata snapshots and request-parameter objects are modelled as
association lists of strings; the JS value `undefined` is modelled as
`Option.none` where the code distinguishes it. -/

/-- JS object property read (`obj[k]`): returns the binding for `k`, or
`none` when the property is absent (JS `undefined`). -/
def jsLookup {α : Type} (m : List (String × α)) (k : String) : Option α :=
  match m with
  | [] => none
  | (k0, v) :: rest => if k0 = k then some v else jsLookup rest k

/-- JS object property assignment (`obj[k] = v`): overwrite an existing
binding in place, or append a new one. -/
def setKey {α : Type} (m : List (String × α)) (k : String) (v : α) : List (String × α) :=
  match m with
  | [] => [(k, v)]
  | (k0, v0) :: rest => if k0 = k then (k, v) :: rest else (k0, v0) :: setKey rest k v

/-- The keys of a JS dictionary model. -/
def keys {α : Type} (m : List (String × α)) : List String := m.map Prod.fst

namespace TelemetryController

/-- Opaque telemetry payload (a JS object); `[]` is the empty object. -/
abbrev Data := List (String × String)

/-- Opaque metadata snapshot returned by a telemetry capability. -/
abbrev Metadata := List (String × String)

/-- Opaque request-parameter object; `[]` is the empty object `\x7b\x7d`. -/
abbrev Req := List (String × String)

/-- A domain object as seen by the controller: `getId()`, the display
name from `getModel().name`, and the optional telemetry capability
(`hasCapability("telemetry")` / `getCapability("telemetry")`), which
carries the metadata snapshot its `getMetadata()` would return.  The
data actually produced by `requestData` is supplied by the environment
at settlement time. -/
structure DomainObject where
  id : String
  name : String
  telemetry : Option Metadata
deriving DecidableEq

/-- One response container (`self.response[id]`), as built by
`buildResponseContainer`.  `gen` is a freshness token standing for JS
object identity: a fetch callback writes its result into the container
captured at issue time, so a settlement only updates the live map when
the container has not been replaced by a rebuild since. -/
structure Entry where
  name : String
  domainObject : DomainObject
  metadata : Metadata
  pending : Int
  data : Data
  gen : Nat
deriving DecidableEq

/-- An issued, not yet settled, telemetry fetch
(`telemetry.requestData(self.request).then(storeData)`).  `track`
records the `trackPending` flag captured by `storeData`; `req` the
request object passed; `gen` the identity of the captured response
container. -/
structure Fetch where
  id : String
  track : Bool
  req : Option Req
  gen : Nat
deriving DecidableEq

/-- The controller's private `self` state, together with the explicit
environment bookkeeping (outstanding fetches, scheduled `$timeout`
tasks, and the count of `telemetryUpdate` broadcasts emitted so far). -/
structure Self where
  ids : List String
  response : List (String × Entry)
  request : Option Req
  pending : Int
  metadatas : List Metadata
  interval : Option Nat
  refreshing : Bool
  broadcasting : Bool
  fetches : List Fetch
  pollTimers : List Nat
  broadcastScheduled : Nat
  broadcastEmitted : Nat
  nextGen : Nat
deriving DecidableEq

/-- `doBroadcast`: arm a deferred `telemetryUpdate` broadcast unless one
is already armed. -/
def doBroadcast (s : Self) : Self :=
  if s.broadcasting = false then
    { s with broadcasting := true, broadcastScheduled := s.broadcastScheduled + 1 }
  else s

/-- The body of the `$timeout` armed by `doBroadcast`: clear the guard
flag, then emit the `telemetryUpdate` broadcast. -/
def broadcastTimeoutBody (s : Self) : Self :=
  if 0 < s.broadcastScheduled then
    { s with broadcastScheduled := s.broadcastScheduled - 1,
             broadcasting := false,
             broadcastEmitted := s.broadcastEmitted + 1 }
  else s

/-- `trackPending ? 1 : 0`. -/
def trackNum (track : Bool) : Int := if track then 1 else 0

/-- `requestTelemetryForId(id, trackPending)`: increment the pending
counter if tracking; on a missing telemetry capability, warn and
decrement it right back (no fetch); otherwise issue the fetch with the
current request parameters.  Returns `none` when `self.response[id]` is
absent (the JS code would throw dereferencing `undefined`). -/
def requestTelemetryForId (s : Self) (id : String) (track : Bool) : Option Self :=
  match jsLookup s.response id with
  | none => none
  | some e =>
    let s1 := { s with pending := s.pending + trackNum track }
    match e.domainObject.telemetry with
    | none => some { s1 with pending := s1.pending - trackNum track }
    | some _ =>
        some { s1 with fetches := s1.fetches ++ [⟨id, track, s1.request, e.gen⟩] }

/-- `requestTelemetry(trackPending)`: issue a fetch for every tracked
id (`$q.all(self.ids.map(...))`). -/
def requestTelemetry (s : Self) (track : Bool) : Option Self :=
  s.ids.foldlM (fun st id => requestTelemetryForId st id track) s

/-- `promiseRelevantDomainObjects`: empty when the represented object is
absent; otherwise the object itself (if it has a telemetry capability)
followed by its telemetry delegates.  `deleg` is the environment's
resolution of `useCapability("delegation", "telemetry")`; a falsy
result is replaced by `[]`. -/
def promiseRelevantDomainObjects (domainObject : Option DomainObject)
    (deleg : Option (List DomainObject)) : List DomainObject :=
  match domainObject with
  | none => []
  | some dobj =>
      (if dobj.telemetry.isSome then [dobj] else []) ++ deleg.getD []

/-- `buildResponseContainer(domainObject)`: build one response
container, with a degenerate empty-metadata container (after a warning)
when the telemetry capability is unexpectedly missing. -/
def buildResponseContainer (s : Self) (dobj : DomainObject) : Self :=
  match dobj.telemetry with
  | some md =>
      { s with response := setKey s.response dobj.id ⟨dobj.name, dobj, md, 0, [], s.nextGen⟩,
               nextGen := s.nextGen + 1 }
  | none =>
      { s with response := setKey s.response dobj.id ⟨dobj.name, dobj, [], 0, [], s.nextGen⟩,
               nextGen := s.nextGen + 1 }

/-- Read `self.response[id].metadata` for each id, failing like JS would
if a container were missing. -/
def lookupMetadatas (resp : List (String × Entry)) : List String → Option (List Metadata)
  | [] => some []
  | id :: rest =>
    match jsLookup resp id with
    | none => none
    | some e => (lookupMetadatas resp rest).map (fun ms => e.metadata :: ms)

/-- The first part of `buildResponseContainers(domainObjects)`: build
all containers, then replace `self.ids` and `self.metadatas`. -/
def rebuildContainers (s : Self) (objs : List DomainObject) : Option Self :=
  match lookupMetadatas (objs.foldl buildResponseContainer s).response
      (objs.map DomainObject.id) with
  | none => none
  | some mds =>
      some { objs.foldl buildResponseContainer s with
             ids := objs.map DomainObject.id, metadatas := mds }

/-- `buildResponseContainers(domainObjects)`: rebuild the containers,
then issue a tracked request sweep if `self.request` is truthy. -/
def buildResponseContainers (s : Self) (objs : List DomainObject) : Option Self :=
  match rebuildContainers s objs with
  | none => none
  | some s1 => if s1.request.isSome then requestTelemetry s1 true else some s1

/-- The `$watch("domainObject", ...)` handler `getTelemetryObjects`
(internal function of the source, renamed to avoid clashing with the
public accessor): resolve the relevant objects, then rebuild. -/
def getTelemetryObjectsWatch (s : Self) (dobj : Option DomainObject)
    (deleg : Option (List DomainObject)) : Option Self :=
  buildResponseContainers s (promiseRelevantDomainObjects dobj deleg)

/-- `startTimeout()`: arm the poll `$timeout` if not already refreshing
and an interval is configured. -/
def startTimeout (s : Self) : Self :=
  if s.refreshing = false then
    match s.interval with
    | none => s
    | some d => { s with refreshing := true, pollTimers := s.pollTimers ++ [d] }
  else s

/-- The body of the poll `$timeout`: issue an untracked sweep if
`self.request` is truthy, clear `refreshing`, and reschedule. -/
def pollTimeoutBody (s : Self) : Option Self :=
  match (if s.request.isSome then requestTelemetry s false else some s) with
  | none => none
  | some s1 => some (startTimeout { s1 with refreshing := false })

/-- Fire the outstanding poll timer (environment step). -/
def runPollTimer (s : Self) : Option Self :=
  match s.pollTimers with
  | [] => some s
  | _ :: rest => pollTimeoutBody { s with pollTimers := rest }

/-- How an issued fetch settles: fulfilled with a payload, or
rejected.  The code's `.then(storeData)` handler only runs on
fulfillment. -/
inductive Outcome where
  | success (d : Data)
  | failure

/-- `responseObject.data = data`: write a settled payload into the
response container captured at issue time.  Only visible in the live
map when the container has not been replaced (generation matches). -/
def writeBack (s : Self) (id : String) (gen : Nat) (d : Data) : Self :=
  match jsLookup s.response id with
  | some e =>
      if e.gen = gen then { s with response := setKey s.response id { e with data := d } }
      else s
  | none => s

/-- Settle the `i`-th outstanding fetch (environment step).  On
fulfillment, `storeData` runs: decrement the pending counter if the
fetch was tracked, store the payload, and arm a broadcast.  On
rejection no handler runs. -/
def settleFetchAt (s : Self) (i : Nat) (o : Outcome) : Self :=
  match s.fetches[i]? with
  | none => s
  | some f =>
      let s1 := { s with fetches := s.fetches.eraseIdx i }
      match o with
      | .failure => s1
      | .success d =>
          doBroadcast (writeBack { s1 with pending := s1.pending - trackNum f.track } f.id f.gen d)

/-- Settle a sequence of outstanding fetches (index, payload pairs),
each by fulfillment, in the given order. -/
def settleSuccessions (st : Self) (steps : List (Nat × Data)) : Self :=
  steps.foldl (fun a p => settleFetchAt a p.1 (Outcome.success p.2)) st

/-- `getMetadata()`. -/
def getMetadata (s : Self) : List Metadata := s.metadatas

/-- Read `self.response[id].domainObject` for each id, failing like JS
would if a container were missing. -/
def lookupObjects (resp : List (String × Entry)) : List String → Option (List DomainObject)
  | [] => some []
  | id :: rest =>
    match jsLookup resp id with
    | none => none
    | some e => (lookupObjects resp rest).map (fun os => e.domainObject :: os)

/-- `getTelemetryObjects()` (the public accessor). -/
def getTelemetryObjects (s : Self) : Option (List DomainObject) :=
  lookupObjects s.response s.ids

/-- Argument to `getResponse`: an identifier string or a domain
object. -/
inductive RArg where
  | byId (id : String)
  | byObj (dobj : DomainObject)

/-- Result of `getResponse`: a single `.data` read (`none` models JS
`undefined`, from `(\x7b\x7d).data` when no container exists), or an
array of results. -/
inductive RResult where
  | val (d : Option Data)
  | arr (l : List RResult)

mutual
/-- `getResponse(arg?)`: compute `id = arg && (typeof arg === 'string' ?
arg : arg.getId())`; when `id` is truthy return
`(self.response[id] || \x7b\x7d).data`, otherwise map `getResponse` over
`self.ids`.  `fuel` bounds the JS call stack: a tracked empty-string
identifier recurses forever in the source, which surfaces here as
`none` at every fuel. -/
def getResponse (fuel : Nat) (s : Self) (arg : Option RArg) : Option RResult :=
  match fuel with
  | 0 => none
  | f + 1 =>
    let id : Option String :=
      match arg with
      | none => none
      | some (RArg.byId i) => some i
      | some (RArg.byObj dobj) => some dobj.id
    match id with
    | some i =>
        if i = "" then (getResponseAll f s s.ids).map RResult.arr
        else some (RResult.val ((jsLookup s.response i).map (fun e => e.data)))
    | none => (getResponseAll f s s.ids).map RResult.arr
termination_by (fuel, 0)

/-- The `self.ids.map(getResponse)` part of the no-argument form. -/
def getResponseAll (fuel : Nat) (s : Self) (l : List String) : Option (List RResult) :=
  match l with
  | [] => some []
  | id :: rest =>
    match getResponse fuel s (some (RArg.byId id)) with
    | none => none
    | some r => (getResponseAll fuel s rest).map (fun rs => r :: rs)
termination_by (fuel, l.length + 1)
end

/-- `isRequestPending()`. -/
def isRequestPending (s : Self) : Bool := s.pending > 0

/-- `requestData(request)`: replace the request parameters
(`request || \x7b\x7d`) and issue a tracked sweep. -/
def requestData (s : Self) (request : Option Req) : Option Self :=
  requestTelemetry { s with request := some (request.getD []) } true

/-- `setRefreshInterval(durationMillis)`. -/
def setRefreshInterval (s : Self) (durationMillis : Option Nat) : Self :=
  startTimeout { s with interval := durationMillis }

/-- The `self` literal of the constructor: empty tracking state, poll
interval 1000 ms, request parameters initialized to the empty object. -/
def initialSelf : Self :=
  { ids := []
    response := []
    request := some []
    pending := 0
    metadatas := []
    interval := some 1000
    refreshing := false
    broadcasting := false
    fetches := []
    pollTimers := []
    broadcastScheduled := 0
    broadcastEmitted := 0
    nextGen := 0 }

/-- The controller state right after construction: the constructor
calls `startTimeout()` before returning. -/
def init : Self := startTimeout initialSelf

/-- The fetches a sweep over the ids `l` issues, given the response
containers and the current request object: one per id whose container's
domain object has a telemetry capability. -/
def issuedOf (resp : List (String × Entry)) (req : Option Req) (track : Bool) :
    List String → List Fetch
  | [] => []
  | id :: rest =>
    match jsLookup resp id with
    | none => issuedOf resp req track rest
    | some e =>
      match e.domainObject.telemetry with
      | none => issuedOf resp req track rest
      | some _ => ⟨id, track, req, e.gen⟩ :: issuedOf resp req track rest

/-- The fetches a sweep `requestTelemetry(track)` issues from state `s`:
one per tracked id whose container's domain object has a telemetry
capability. -/
def issuedFetches (s : Self) (track : Bool) : List Fetch :=
  issuedOf s.response s.request track s.ids

/-- Reachable controller states: the constructed state, closed under
the environment events (represented-object changes, public API calls,
fetch settlements, `$timeout` firings). -/
inductive Reach : Self → Prop where
  | init : Reach init
  | watch {s s' : Self} (dobj : Option DomainObject) (deleg : Option (List DomainObject)) :
      Reach s → getTelemetryObjectsWatch s dobj deleg = some s' → Reach s'
  | request {s s' : Self} (r : Option Req) :
      Reach s → requestData s r = some s' → Reach s'
  | setInterval {s : Self} (d : Option Nat) : Reach s → Reach (setRefreshInterval s d)
  | settle {s : Self} (i : Nat) (o : Outcome) : Reach s → Reach (settleFetchAt s i o)
  | broadcastFire {s : Self} : Reach s → Reach (broadcastTimeoutBody s)
  | pollFire {s s' : Self} : Reach s → runPollTimer s = some s' → Reach s'

/-- A concrete metadata snapshot for the example runs below. -/
def mdA : Metadata := [("k", "v")]

/-- A concrete telemetry-providing domain object. -/
def objA : DomainObject := ⟨"a", "A", some mdA⟩

/-- A second concrete telemetry-providing domain object. -/
def objB : DomainObject := ⟨"b", "B", some [("k", "w")]⟩

/-- The constructed controller after the represented object resolves to
`objA`: one tracked entry and, because the initial request object is
truthy, one already-issued tracked fetch. -/
def exS1 : Self := (getTelemetryObjectsWatch init (some objA) none).getD init

/-- `exS1` after its outstanding fetch settles successfully. -/
def exS2 : Self := settleFetchAt exS1 0 (Outcome.success [("x", "1")])

/-- A concrete request-parameters object. -/
def exReq : Req := [("m", "latest")]

/-- `exS2` after `requestData(exReq)`. -/
def exS3 : Self := (requestData exS2 (some exReq)).getD exS2

/-- `exS3` after its single issued fetch settles by rejection. -/
def exS4 : Self := settleFetchAt exS3 0 Outcome.failure

/-- `exS1` after the represented object changes to `objB`. -/
def exT2 : Self := (getTelemetryObjectsWatch exS1 (some objB) none).getD exS1

/-- The controller-wide consistency invariant: the request parameters
are always a real object (truthy), the metadata list is index-aligned
with the id list through the response containers, and the container map
has no duplicate keys. -/
def InvTC (s : Self) : Prop :=
  s.request.isSome = true ∧
  s.metadatas.length = s.ids.length ∧
  (∀ (i : Nat) (id : String), s.ids[i]? = some id →
    ∃ e, jsLookup s.response id = some e ∧ s.metadatas[i]? = some e.metadata) ∧
  (keys s.response).Nodup

end TelemetryController

namespace ExportAsJSON

/-- A domain-object model snapshot (`getModel()`); only the display
name is observed by this code. -/
structure DOModel where
  name : String
deriving DecidableEq

/-- A domain object as seen by the export action: `getId()`,
`getModel()`, and the optional composition capability
(`hasCapability("composition")`), which carries the child list its
`useCapability("composition")` promise resolves with. -/
inductive DomainObject where
  | mk (id : String) (model : DOModel) (comp : Option (List DomainObject))

def DomainObject.id : DomainObject → String
  | .mk i _ _ => i

def DomainObject.model : DomainObject → DOModel
  | .mk _ m _ => m

def DomainObject.comp : DomainObject → Option (List DomainObject)
  | .mk _ _ c => c

mutual
/-- All nodes of the composition subtree rooted at an object (the
object itself, then everything below its composition capability). -/
def nodes : DomainObject → List DomainObject
  | .mk i m c => DomainObject.mk i m c :: nodesUnder c

/-- Nodes below an optional composition capability. -/
def nodesUnder : Option (List DomainObject) → List DomainObject
  | none => []
  | some cs => nodesList cs

/-- Nodes of the subtrees of a list of objects. -/
def nodesList : List DomainObject → List DomainObject
  | [] => []
  | c :: rest => nodes c ++ nodesList rest
end

/-- The accumulated identifier-to-model tree. -/
abbrev Tree := List (String × DOModel)

/-- The envelope handed to the export service. -/
structure JsonDoc where
  openmct : Tree
deriving DecidableEq

/-- `wrap(tree)`: the `\x7b openmct: tree \x7d` envelope. -/
def wrap (tree : Tree) : JsonDoc := ⟨tree⟩

/-- The state of one `perform()` of the export action: the shared tree,
the shared `this.calls` join counter, the resolved child lists of
outstanding composition fetches (one per `.then` not yet run), and the
`exportService.exportJSON(document, \x7bfilename\x7d)` invocations made
so far. -/
structure ActionState where
  tree : Tree
  calls : Int
  tasks : List (List DomainObject)
  exports : List (JsonDoc × String)

/-- Invoke the completion callback when the join counter reached zero:
`if (this.calls === 0) callback(this.wrap(tree))`, where the callback
(built in `contructJSON`) hands `wrap(tree)` and the filename to the
export service. -/
def fireIfZero (fname : String) (st : ActionState) : ActionState :=
  if st.calls = 0 then { st with exports := st.exports ++ [(wrap st.tree, fname)] }
  else st

/-- `write(tree, domainObject, callback)`: increment the join counter;
with a composition capability, start the asynchronous child fetch
(registering its `.then`); without one, decrement immediately and test
for completion. -/
def write (fname : String) (st : ActionState) (dobj : DomainObject) : ActionState :=
  let st1 := { st with calls := st.calls + 1 }
  match dobj.comp with
  | some cs => { st1 with tasks := st1.tasks ++ [cs] }
  | none => fireIfZero fname { st1 with calls := st1.calls - 1 }

/-- The `children.forEach` body of a settled composition fetch: record
each child's identifier-to-model entry, then recursively `write` it. -/
def runChildren (fname : String) (st : ActionState) (cs : List DomainObject) : ActionState :=
  cs.foldl (fun st c => write fname { st with tree := setKey st.tree c.id c.model } c) st

/-- The whole `.then` callback of a composition fetch: process the
children, decrement the join counter, test for completion. -/
def runTaskBody (fname : String) (st : ActionState) (cs : List DomainObject) : ActionState :=
  fireIfZero fname { runChildren fname st cs with calls := (runChildren fname st cs).calls - 1 }

/-- Environment step: settle the `i`-th outstanding composition fetch
(promise settlement order is arbitrary). -/
def schedStep (fname : String) (st : ActionState) (i : Nat) : ActionState :=
  match st.tasks[i]? with
  | none => st
  | some cs => runTaskBody fname { st with tasks := st.tasks.eraseIdx i } cs

/-- Run a whole settlement schedule. -/
def run (fname : String) (st : ActionState) (sched : List Nat) : ActionState :=
  sched.foldl (schedStep fname) st

/-- The filename `contructJSON` derives for a root:
`rootObject.getModel().name + '.json'`. -/
def exportFilename (root : DomainObject) : String := root.model.name ++ ".json"

/-- `contructJSON(rootObject)`: seed the tree with the root's entry and
`write` the root, with the completion callback exporting the wrapped
tree under the derived filename. -/
def contructJSON (rootObject : DomainObject) : ActionState :=
  write (exportFilename rootObject)
    { tree := setKey [] rootObject.id rootObject.model
      calls := 0
      tasks := []
      exports := [] } rootObject

/-- `perform()` on a context carrying `rootObject` (with `this.calls`
initialized to zero by the constructor). -/
def perform (root : DomainObject) : ActionState := contructJSON root

/-- The export-walk invariant for a run rooted at `root`: the join
counter equals the number of outstanding composition fetches; every
node of the subtree is either already keyed in the tree or below an
outstanding fetch; outstanding fetches only hold subtree nodes; every
tree binding comes from a subtree node; and the export service has been
invoked exactly when (and only when) the walk has completed. -/
def ExportInv (root : DomainObject) (st : ActionState) : Prop :=
  st.calls = (st.tasks.length : Int) ∧
  (∀ n ∈ nodes root, (jsLookup st.tree n.id).isSome = true ∨ ∃ cs ∈ st.tasks, n ∈ nodesList cs) ∧
  (∀ cs ∈ st.tasks, ∀ x ∈ nodesList cs, x ∈ nodes root) ∧
  (∀ p ∈ st.tree, ∃ n, n ∈ nodes root ∧ n.id = p.1 ∧ n.model = p.2) ∧
  (st.tasks = [] → st.exports = [(wrap st.tree, exportFilename root)]) ∧
  (st.tasks ≠ [] → st.exports = [])

/-- A concrete leaf child for the example export run. -/
def exChild1 : DomainObject := DomainObject.mk "c1" ⟨"Child1"⟩ none

/-- A second concrete leaf child. -/
def exChild2 : DomainObject := DomainObject.mk "c2" ⟨"Child2"⟩ none

/-- A concrete root with two children and no grandchildren. -/
def exRoot : DomainObject := DomainObject.mk "r" ⟨"Root"⟩ (some [exChild1, exChild2])

/-- The completed export run on `exRoot` (the single composition fetch
settles first). -/
def exFinal : ActionState := run (exportFilename exRoot) (perform exRoot) [0]

end ExportAsJSON

/-! ### Association-list lemmas -/

theorem jsLookup_setKey_self {α : Type} (m : List (String × α)) (k : String) (v : α) :
    jsLookup (setKey m k v) k = some v := by
  induction m with
  | nil => simp [setKey, jsLookup]
  | cons p rest ih =>
    obtain ⟨k0, v0⟩ := p
    by_cases h : k0 = k
    · simp [setKey, jsLookup, h]
    · simp [setKey, jsLookup, h, ih]

theorem jsLookup_setKey_ne {α : Type} (m : List (String × α)) (k k' : String) (v : α)
    (h : k' ≠ k) : jsLookup (setKey m k v) k' = jsLookup m k' := by
  have hne : ¬ k = k' := fun hk => h hk.symm
  induction m with
  | nil => simp [setKey, jsLookup, hne]
  | cons p rest ih =>
    obtain ⟨k0, v0⟩ := p
    by_cases h0 : k0 = k
    · subst h0
      simp [setKey, jsLookup, hne]
    · simp [setKey, jsLookup, h0, ih]

theorem mem_of_jsLookup_eq_some {α : Type} {m : List (String × α)} {k : String} {v : α}
    (h : jsLookup m k = some v) : (k, v) ∈ m := by
  induction m with
  | nil => simp [jsLookup] at h
  | cons p rest ih =>
    obtain ⟨k0, v0⟩ := p
    by_cases h0 : k0 = k
    · subst h0
      simp [jsLookup] at h
      subst h
      exact List.mem_cons_self _ _
    · simp [jsLookup, h0] at h
      exact List.mem_cons_of_mem _ (ih h)

theorem mem_keys_of_jsLookup_eq_some {α : Type} {m : List (String × α)} {k : String} {v : α}
    (h : jsLookup m k = some v) : k ∈ keys m := by
  have := mem_of_jsLookup_eq_some h
  exact List.mem_map_of_mem Prod.fst this

theorem keys_setKey_of_mem {α : Type} (m : List (String × α)) (k : String) (v : α)
    (h : k ∈ keys m) : keys (setKey m k v) = keys m := by
  induction m with
  | nil => simp [keys] at h
  | cons p rest ih =>
    obtain ⟨k0, v0⟩ := p
    by_cases h0 : k0 = k
    · simp [setKey, keys, h0]
    · simp [keys] at h
      rcases h with h | h

      · exact absurd h.symm h0
      · simp [setKey, keys, h0]
        exact ih (by simpa [keys] using h)

theorem keys_setKey_of_not_mem {α : Type} (m : List (String × α)) (k : String) (v : α)
    (h : ¬ k ∈ keys m) : keys (setKey m k v) = keys m ++ [k] := by
  induction m with
  | nil => simp [setKey, keys]
  | cons p rest ih =>
    obtain ⟨k0, v0⟩ := p
    simp [keys] at h
    push_neg at h
    have h0 : k0 ≠ k := fun hk => h.1 hk.symm
    simp [setKey, keys, h0]
    exact ih (by simpa [keys] using h.2)

theorem nodup_keys_setKey {α : Type} (m : List (String × α)) (k : String) (v : α)
    (h : (keys m).Nodup) : (keys (setKey m k v)).Nodup := by
  by_cases hk : k ∈ keys m
  · rwa [keys_setKey_of_mem m k v hk]
  · rw [keys_setKey_of_not_mem m k v hk]
    simpa using List.Nodup.append h (by simp) (by simpa [List.disjoint_singleton] using hk)

theorem mem_setKey {α : Type} {m : List (String × α)} {k : String} {v : α} {p : String × α}
    (h : p ∈ setKey m k v) : p ∈ m ∨ p = (k, v) := by
  induction m with
  | nil => simp [setKey] at h; exact Or.inr h
  | cons q rest ih =>
    obtain ⟨k0, v0⟩ := q
    by_cases h0 : k0 = k
    · simp [setKey, h0] at h
      rcases h with h | h
      · exact Or.inr h
      · exact Or.inl (List.mem_cons_of_mem _ h)
    · simp only [setKey, h0, if_false, List.mem_cons] at h
      rcases h with h | h
      · exact Or.inl (by simp [h])
      · rcases ih h with h | h
        · exact Or.inl (List.mem_cons_of_mem _ h)
        · exact Or.inr h

/-- A key of a duplicate-free dictionary has exactly one binding. -/
theorem count_keys_eq_one {α : Type} {m : List (String × α)} {k : String}
    (hnd : (keys m).Nodup) (hmem : k ∈ keys m) : (keys m).count k = 1 :=
  List.count_eq_one_of_mem hnd hmem

/-! ### Effect of a `requestTelemetry` sweep -/

namespace TelemetryController

theorem issuedOf_cons_absent {resp : List (String × Entry)} {req : Option Req} {t : Bool}
    {id : String} {rest : List String} (hl : jsLookup resp id = none) :
    issuedOf resp req t (id :: rest) = issuedOf resp req t rest := by
  simp [issuedOf, hl]

theorem issuedOf_cons_noCap {resp : List (String × Entry)} {req : Option Req} {t : Bool}
    {id : String} {rest : List String} {e : Entry} (hl : jsLookup resp id = some e)
    (ht : e.domainObject.telemetry = none) :
    issuedOf resp req t (id :: rest) = issuedOf resp req t rest := by
  simp [issuedOf, hl, ht]

theorem issuedOf_cons_cap {resp : List (String × Entry)} {req : Option Req} {t : Bool}
    {id : String} {rest : List String} {e : Entry} {md : Metadata}
    (hl : jsLookup resp id = some e) (ht : e.domainObject.telemetry = some md) :
    issuedOf resp req t (id :: rest) = ⟨id, t, req, e.gen⟩ :: issuedOf resp req t rest := by
  simp [issuedOf, hl, ht]

theorem track_of_mem_issuedOf {resp : List (String × Entry)} {req : Option Req} {t : Bool}
    {f : Fetch} : ∀ {l : List String}, f ∈ issuedOf resp req t l → f.track = t := by
  intro l
  induction l with
  | nil => intro h; simp [issuedOf] at h
  | cons id rest ih =>
    intro h
    cases hl : jsLookup resp id with
    | none => rw [issuedOf_cons_absent hl] at h; exact ih h
    | some e =>
      cases ht : e.domainObject.telemetry with
      | none => rw [issuedOf_cons_noCap hl ht] at h; exact ih h
      | some md =>
        rw [issuedOf_cons_cap hl ht] at h
        rcases List.mem_cons.mp h with h | h
        · rw [h]
        · exact ih h

theorem requestTelemetry_fold_eq {t : Bool} :
    ∀ (l : List String) (st st' : Self),
      l.foldlM (fun a id => requestTelemetryForId a id t) st = some st' →
      st' = { st with
        pending := st.pending +
          (if t then ((issuedOf st.response st.request t l).length : Int) else 0),
        fetches := st.fetches ++ issuedOf st.response st.request t l } := by
  intro l
  induction l with
  | nil =>
    intro st st' h
    simp only [List.foldlM] at h
    cases h
    cases st
    cases t <;> simp [issuedOf]
  | cons id rest ih =>
    intro st st' h
    rw [List.foldlM_cons] at h
    cases hl : jsLookup st.response id with
    | none => simp [requestTelemetryForId, hl] at h
    | some e =>
      cases ht : e.domainObject.telemetry with
      | none =>
        have h1 : requestTelemetryForId st id t =
            some { st with pending := st.pending + trackNum t - trackNum t } := by
          simp [requestTelemetryForId, hl, ht]
        rw [h1] at h
        simp only [Option.bind_eq_bind, Option.some_bind] at h
        have hst : ({ st with pending := st.pending + trackNum t - trackNum t } : Self) = st := by
          cases st
          simp
        rw [hst] at h
        have h2 := ih st st' h
        rw [h2, issuedOf_cons_noCap hl ht]
      | some md =>
        have h1 : requestTelemetryForId st id t =
            some { st with pending := st.pending + trackNum t,
                           fetches := st.fetches ++ [⟨id, t, st.request, e.gen⟩] } := by
          simp [requestTelemetryForId, hl, ht]
        rw [h1] at h
        simp only [Option.bind_eq_bind, Option.some_bind] at h
        have h2 := ih _ st' h
        rw [h2, issuedOf_cons_cap hl ht]
        cases st
        cases t <;> (simp [trackNum]; try omega)

theorem requestTelemetry_eq {s s' : Self} {t : Bool}
    (h : requestTelemetry s t = some s') :
    s' = { s with
      pending := s.pending + (if t then ((issuedFetches s t).length : Int) else 0),
      fetches := s.fetches ++ issuedFetches s t } :=
  requestTelemetry_fold_eq s.ids s s' h

theorem requestTelemetry_fold_isSome {t : Bool} :
    ∀ (l : List String) (st : Self), (∀ id ∈ l, (jsLookup st.response id).isSome) →
      ∃ st', l.foldlM (fun a id => requestTelemetryForId a id t) st = some st' := by
  intro l
  induction l with
  | nil => intro st _; exact ⟨st, rfl⟩
  | cons id rest ih =>
    intro st hall
    have h0 : (jsLookup st.response id).isSome := hall id (List.mem_cons_self _ _)
    cases hl : jsLookup st.response id with
    | none => rw [hl] at h0; simp at h0
    | some e =>
      rw [List.foldlM_cons]
      cases ht : e.domainObject.telemetry with
      | none =>
        have h1 : requestTelemetryForId st id t =
            some { st with pending := st.pending + trackNum t - trackNum t } := by
          simp [requestTelemetryForId, hl, ht]
        rw [h1]
        simp only [Option.bind_eq_bind, Option.some_bind]
        exact ih _ (fun i hi => hall i (List.mem_cons_of_mem _ hi))
      | some md =>
        have h1 : requestTelemetryForId st id t =
            some { st with pending := st.pending + trackNum t,
                           fetches := st.fetches ++ [⟨id, t, st.request, e.gen⟩] } := by
          simp [requestTelemetryForId, hl, ht]
        rw [h1]
        simp only [Option.bind_eq_bind, Option.some_bind]
        exact ih _ (fun i hi => hall i (List.mem_cons_of_mem _ hi))

theorem requestTelemetry_isSome {s : Self} {t : Bool}
    (h : ∀ id ∈ s.ids, (jsLookup s.response id).isSome) :
    ∃ s', requestTelemetry s t = some s' :=
  requestTelemetry_fold_isSome s.ids s h

/-! ### Container rebuilds and the controller invariant -/

theorem lookupMetadatas_cons_none {resp : List (String × Entry)} {id : String}
    {rest : List String} (hl : jsLookup resp id = none) :
    lookupMetadatas resp (id :: rest) = none := by
  simp [lookupMetadatas, hl]

theorem lookupMetadatas_cons_some {resp : List (String × Entry)} {id : String}
    {rest : List String} {e : Entry} (hl : jsLookup resp id = some e) :
    lookupMetadatas resp (id :: rest) =
      (lookupMetadatas resp rest).map (fun ms => e.metadata :: ms) := by
  simp [lookupMetadatas, hl]

theorem lookupMetadatas_spec :
    ∀ (l : List String) (resp : List (String × Entry)) (ms : List Metadata),
      lookupMetadatas resp l = some ms →
      ms.length = l.length ∧
      ∀ (i : Nat) (id : String), l[i]? = some id →
        ∃ e, jsLookup resp id = some e ∧ ms[i]? = some e.metadata := by
  intro l
  induction l with
  | nil =>
    intro resp ms h
    simp only [lookupMetadatas] at h
    cases h
    refine ⟨rfl, ?_⟩
    intro i id hid
    simp at hid
  | cons id0 rest ih =>
    intro resp ms h
    cases hl : jsLookup resp id0 with
    | none => rw [lookupMetadatas_cons_none hl] at h; cases h
    | some e =>
      rw [lookupMetadatas_cons_some hl] at h
      cases hrest : lookupMetadatas resp rest with
      | none => rw [hrest] at h; cases h
      | some ms' =>
        rw [hrest] at h
        simp at h
        subst h
        obtain ⟨hlen, hptr⟩ := ih resp ms' hrest
        refine ⟨by simp [hlen], ?_⟩
        intro i id hid
        cases i with
        | zero =>
          simp only [List.getElem?_cons_zero, Option.some_inj] at hid
          cases hid
          exact ⟨e, hl, by simp⟩
        | succ n =>
          simp only [List.getElem?_cons_succ] at hid
          obtain ⟨e', he1, he2⟩ := hptr n id hid
          exact ⟨e', he1, by simpa using he2⟩

theorem lookupObjects_cons_none {resp : List (String × Entry)} {id : String}
    {rest : List String} (hl : jsLookup resp id = none) :
    lookupObjects resp (id :: rest) = none := by
  simp [lookupObjects, hl]

theorem lookupObjects_cons_some {resp : List (String × Entry)} {id : String}
    {rest : List String} {e : Entry} (hl : jsLookup resp id = some e) :
    lookupObjects resp (id :: rest) =
      (lookupObjects resp rest).map (fun os => e.domainObject :: os) := by
  simp [lookupObjects, hl]

theorem lookupObjects_spec :
    ∀ (l : List String) (resp : List (String × Entry)),
      (∀ id ∈ l, (jsLookup resp id).isSome) →
      ∃ os, lookupObjects resp l = some os ∧ os.length = l.length ∧
        ∀ (i : Nat) (id : String), l[i]? = some id →
          ∃ e, jsLookup resp id = some e ∧ os[i]? = some e.domainObject := by
  intro l
  induction l with
  | nil =>
    intro resp _
    refine ⟨[], rfl, rfl, ?_⟩
    intro i id hid
    simp at hid
  | cons id0 rest ih =>
    intro resp hall
    have h0 : (jsLookup resp id0).isSome = true := hall id0 (List.mem_cons_self _ _)
    cases hl : jsLookup resp id0 with
    | none => rw [hl] at h0; cases h0
    | some e =>
      obtain ⟨os, hos, hlen, hptr⟩ := ih resp (fun i hi => hall i (List.mem_cons_of_mem _ hi))
      refine ⟨e.domainObject :: os, ?_, by simp [hlen], ?_⟩
      · rw [lookupObjects_cons_some hl, hos]
        rfl
      · intro i id hid
        cases i with
        | zero =>
          simp only [List.getElem?_cons_zero, Option.some_inj] at hid
          cases hid
          exact ⟨e, hl, by simp⟩
        | succ n =>
          simp only [List.getElem?_cons_succ] at hid
          obtain ⟨e', he1, he2⟩ := hptr n id hid
          exact ⟨e', he1, by simpa using he2⟩

theorem buildResponseContainer_response (s : Self) (obj : DomainObject) :
    ∃ v, (buildResponseContainer s obj).response = setKey s.response obj.id v := by
  cases h : obj.telemetry with
  | none =>
    exact ⟨⟨obj.name, obj, [], 0, [], s.nextGen⟩, by simp [buildResponseContainer, h]⟩
  | some md =>
    exact ⟨⟨obj.name, obj, md, 0, [], s.nextGen⟩, by simp [buildResponseContainer, h]⟩

theorem buildResponseContainer_request (s : Self) (obj : DomainObject) :
    (buildResponseContainer s obj).request = s.request := by
  cases h : obj.telemetry with
  | none => simp [buildResponseContainer, h]
  | some md => simp [buildResponseContainer, h]

theorem buildRC_fold_request :
    ∀ (objs : List DomainObject) (s : Self),
      (objs.foldl buildResponseContainer s).request = s.request := by
  intro objs
  induction objs with
  | nil => intro s; rfl
  | cons o rest ih =>
    intro s
    rw [List.foldl_cons, ih, buildResponseContainer_request]

theorem buildRC_fold_nodup :
    ∀ (objs : List DomainObject) (s : Self),
      (keys s.response).Nodup →
      (keys ((objs.foldl buildResponseContainer s).response)).Nodup := by
  intro objs
  induction objs with
  | nil => intro s h; exact h
  | cons o rest ih =>
    intro s h
    rw [List.foldl_cons]
    apply ih
    obtain ⟨v, hv⟩ := buildResponseContainer_response s o
    rw [hv]
    exact nodup_keys_setKey _ _ _ h

theorem rebuildContainers_eq {s s1 : Self} {objs : List DomainObject}
    (h : rebuildContainers s objs = some s1) :
    ∃ ms, lookupMetadatas (objs.foldl buildResponseContainer s).response
        (objs.map DomainObject.id) = some ms ∧
      s1 = { objs.foldl buildResponseContainer s with
             ids := objs.map DomainObject.id, metadatas := ms } := by
  unfold rebuildContainers at h
  split at h
  · cases h
  · rename_i ms hm
    simp only [Option.some_inj] at h
    exact ⟨ms, hm, h.symm⟩

theorem InvTC_startTimeout {s : Self} (h : InvTC s) : InvTC (startTimeout s) := by
  unfold startTimeout
  split
  · split
    · exact h
    · exact ⟨h.1, h.2.1, h.2.2.1, h.2.2.2⟩
  · exact h

theorem InvTC_doBroadcast {s : Self} (h : InvTC s) : InvTC (doBroadcast s) := by
  unfold doBroadcast
  split
  · exact ⟨h.1, h.2.1, h.2.2.1, h.2.2.2⟩
  · exact h

theorem writeBack_aligned {s : Self} {id : String} {gen : Nat} {d : Data} {id' : String}
    {e' : Entry} (h : jsLookup s.response id' = some e') :
    ∃ e2, jsLookup (writeBack s id gen d).response id' = some e2 ∧
      e2.metadata = e'.metadata ∧ e2.domainObject = e'.domainObject := by
  unfold writeBack
  split
  · rename_i e hl
    split
    · rename_i hg
      by_cases hid : id' = id
      · refine ⟨{ e with data := d }, ?_, ?_, ?_⟩
        · subst hid
          simpa using jsLookup_setKey_self s.response id' _
        · subst hid
          rw [h] at hl
          cases hl
          rfl
        · subst hid
          rw [h] at hl
          cases hl
          rfl
      · refine ⟨e', ?_, rfl, rfl⟩
        simpa [jsLookup_setKey_ne s.response id id' _ hid] using h
    · exact ⟨e', h, rfl, rfl⟩
  · exact ⟨e', h, rfl, rfl⟩

theorem writeBack_nodup {s : Self} {id : String} {gen : Nat} {d : Data}
    (h : (keys s.response).Nodup) : (keys (writeBack s id gen d).response).Nodup := by
  unfold writeBack
  split
  · split
    · exact nodup_keys_setKey _ _ _ h
    · exact h
  · exact h

theorem writeBack_fields {s : Self} {id : String} {gen : Nat} {d : Data} :
    (writeBack s id gen d).ids = s.ids ∧ (writeBack s id gen d).metadatas = s.metadatas ∧
    (writeBack s id gen d).request = s.request ∧ (writeBack s id gen d).pending = s.pending ∧
    (writeBack s id gen d).fetches = s.fetches := by
  unfold writeBack
  split
  · split
    · exact ⟨rfl, rfl, rfl, rfl, rfl⟩
    · exact ⟨rfl, rfl, rfl, rfl, rfl⟩
  · exact ⟨rfl, rfl, rfl, rfl, rfl⟩

theorem InvTC_writeBack {s : Self} {id : String} {gen : Nat} {d : Data}
    (h : InvTC s) : InvTC (writeBack s id gen d) := by
  obtain ⟨hi, hm, hq, _, _⟩ := @writeBack_fields s id gen d
  refine ⟨by rw [hq]; exact h.1, by rw [hi, hm]; exact h.2.1, ?_, ?_⟩
  · intro j jd hjd
    rw [hi] at hjd
    obtain ⟨e, he1, he2⟩ := h.2.2.1 j jd hjd
    obtain ⟨e2, h2, hmd, _⟩ := writeBack_aligned he1
    exact ⟨e2, h2, by rw [hm, hmd]; exact he2⟩
  · exact writeBack_nodup h.2.2.2

theorem InvTC_settleFetchAt {s : Self} (i : Nat) (o : Outcome) (h : InvTC s) :
    InvTC (settleFetchAt s i o) := by
  unfold settleFetchAt
  split
  · exact h
  · split
    · exact ⟨h.1, h.2.1, h.2.2.1, h.2.2.2⟩
    · exact InvTC_doBroadcast (InvTC_writeBack ⟨h.1, h.2.1, h.2.2.1, h.2.2.2⟩)

theorem InvTC_pollTimeoutBody {s s' : Self} (h : InvTC s)
    (he : pollTimeoutBody s = some s') : InvTC s' := by
  unfold pollTimeoutBody at he
  split at he
  · cases he
  · rename_i s1 hs1
    simp only [Option.some_inj] at he
    rw [← he]
    apply InvTC_startTimeout
    split at hs1
    · have h1 := requestTelemetry_eq hs1
      rw [h1]
      exact ⟨h.1, h.2.1, h.2.2.1, h.2.2.2⟩
    · simp only [Option.some_inj] at hs1
      rw [← hs1]
      exact ⟨h.1, h.2.1, h.2.2.1, h.2.2.2⟩

/-- Every reachable controller state satisfies the consistency
invariant. -/
theorem reach_InvTC {s : Self} (h : Reach s) : InvTC s := by
  induction h with
  | init =>
    refine ⟨rfl, rfl, ?_, ?_⟩
    · intro i id hid
      simp [init, startTimeout, initialSelf] at hid
    · simp [init, startTimeout, initialSelf, keys]
  | watch dobj deleg hs heq ih =>
    rename_i s s'
    unfold getTelemetryObjectsWatch buildResponseContainers at heq
    split at heq
    · cases heq
    · rename_i s1 hrb
      obtain ⟨ms, hms, hs1⟩ := rebuildContainers_eq hrb
      have hreq1 : s1.request = s.request := by
        rw [hs1]
        exact buildRC_fold_request _ s
      have inv1 : InvTC s1 := by
        obtain ⟨hlen, hptr⟩ := lookupMetadatas_spec _ _ _ hms
        refine ⟨by rw [hreq1]; exact ih.1, ?_, ?_, ?_⟩
        · rw [hs1]
          simpa using hlen
        · intro i id hid
          rw [hs1] at hid ⊢
          obtain ⟨e, he1, he2⟩ := hptr i id hid
          exact ⟨e, he1, he2⟩
        · rw [hs1]
          exact buildRC_fold_nodup _ s ih.2.2.2
      have hq : s1.request.isSome = true := by rw [hreq1]; exact ih.1
      rw [if_pos hq] at heq
      have heq2 := requestTelemetry_eq heq
      rw [heq2]
      exact ⟨inv1.1, inv1.2.1, inv1.2.2.1, inv1.2.2.2⟩
  | request r hs heq ih =>
    rename_i s s'
    unfold requestData at heq
    have heq2 := requestTelemetry_eq heq
    rw [heq2]
    exact ⟨rfl, ih.2.1, ih.2.2.1, ih.2.2.2⟩
  | setInterval d hs ih =>
    exact InvTC_startTimeout ⟨ih.1, ih.2.1, ih.2.2.1, ih.2.2.2⟩
  | settle i o hs ih =>
    exact InvTC_settleFetchAt i o ih
  | broadcastFire hs ih =>
    rename_i s
    unfold broadcastTimeoutBody
    split
    · exact ⟨ih.1, ih.2.1, ih.2.2.1, ih.2.2.2⟩
    · exact ih
  | pollFire hs heq ih =>
    rename_i s s'
    unfold runPollTimer at heq
    split at heq
    · cases heq
      exact ih
    · refine InvTC_pollTimeoutBody ?_ heq
      exact ⟨ih.1, ih.2.1, ih.2.2.1, ih.2.2.2⟩

/-! ### Settlement accounting -/

theorem doBroadcast_fields (s : Self) :
    (doBroadcast s).pending = s.pending ∧ (doBroadcast s).fetches = s.fetches := by
  unfold doBroadcast
  split
  · exact ⟨rfl, rfl⟩
  · exact ⟨rfl, rfl⟩

theorem settle_parts (X : Self) (id : String) (gen : Nat) (d : Data) :
    (doBroadcast (writeBack X id gen d)).pending = X.pending ∧
    (doBroadcast (writeBack X id gen d)).fetches = X.fetches := by
  obtain ⟨h1, h2⟩ := doBroadcast_fields (writeBack X id gen d)
  obtain ⟨_, _, _, h3, h4⟩ := @writeBack_fields X id gen d
  exact ⟨h1.trans h3, h2.trans h4⟩

theorem settleFetchAt_success_fields {st : Self} {i : Nat} {d : Data} {f : Fetch}
    (hget : st.fetches[i]? = some f) :
    (settleFetchAt st i (Outcome.success d)).pending = st.pending - trackNum f.track ∧
    (settleFetchAt st i (Outcome.success d)).fetches = st.fetches.eraseIdx i := by
  unfold settleFetchAt
  rw [hget]
  exact settle_parts ({ st with
    fetches := st.fetches.eraseIdx i,
    pending := st.pending - trackNum f.track } : Self) f.id f.gen d

theorem settleFetchAt_skip {st : Self} {i : Nat} {o : Outcome}
    (hget : st.fetches[i]? = none) : settleFetchAt st i o = st := by
  unfold settleFetchAt
  rw [hget]

theorem settleSuccessions_account :
    ∀ (steps : List (Nat × Data)) (st : Self),
      (∀ f ∈ st.fetches, f.track = true) →
      (∀ f ∈ (settleSuccessions st steps).fetches, f.track = true) ∧
      (settleSuccessions st steps).pending -
          ((settleSuccessions st steps).fetches.length : Int) =
        st.pending - (st.fetches.length : Int) := by
  intro steps
  induction steps with
  | nil => intro st h; exact ⟨h, rfl⟩
  | cons p rest ih =>
    intro st h
    have hstep : settleSuccessions st (p :: rest) =
        settleSuccessions (settleFetchAt st p.1 (Outcome.success p.2)) rest := rfl
    rw [hstep]
    cases hget : st.fetches[p.1]? with
    | none =>
      rw [settleFetchAt_skip hget]
      exact ih st h
    | some f =>
      obtain ⟨hp, hf⟩ := settleFetchAt_success_fields hget
      have htrk : ∀ f' ∈ (settleFetchAt st p.1 (Outcome.success p.2)).fetches,
          f'.track = true := by
        intro f' hf'
        rw [hf] at hf'
        exact h f' (List.mem_of_mem_eraseIdx hf')
      obtain ⟨ha, hb⟩ := ih _ htrk
      refine ⟨ha, ?_⟩
      rw [hb, hp, hf]
      have hilt : p.1 < st.fetches.length := (List.getElem?_eq_some.mp hget).1
      have hlen := List.length_eraseIdx_add_one hilt
      have htr : f.track = true := h f (by
        obtain ⟨hi, he⟩ := List.getElem?_eq_some.mp hget
        exact he ▸ List.getElem_mem hi)
      rw [htr]
      simp only [trackNum, if_true]
      omega

/-! ### `getResponse` reductions -/

theorem getResponse_byId_ne {f : Nat} {s : Self} {i : String} (h : ¬ i = "") :
    getResponse (f + 1) s (some (RArg.byId i)) =
      some (RResult.val ((jsLookup s.response i).map (fun e => e.data))) := by
  unfold getResponse
  simp [h]

theorem getResponse_byObj_ne {f : Nat} {s : Self} {dobj : DomainObject} (h : ¬ dobj.id = "") :
    getResponse (f + 1) s (some (RArg.byObj dobj)) =
      some (RResult.val ((jsLookup s.response dobj.id).map (fun e => e.data))) := by
  unfold getResponse
  simp [h]

theorem getResponse_none_eq {f : Nat} {s : Self} :
    getResponse (f + 1) s none = (getResponseAll f s s.ids).map RResult.arr := by
  unfold getResponse
  simp

theorem getResponse_emptyId {f : Nat} {s : Self} :
    getResponse (f + 1) s (some (RArg.byId "")) =
      (getResponseAll f s s.ids).map RResult.arr := by
  unfold getResponse
  simp

theorem getResponseAll_eq {s : Self} :
    ∀ (l : List String) (f : Nat), (∀ id ∈ l, ¬ id = "") →
      getResponseAll (f + 1) s l =
        some (l.map (fun id => RResult.val ((jsLookup s.response id).map (fun e => e.data)))) := by
  intro l
  induction l with
  | nil =>
    intro f h
    simp [getResponseAll]
  | cons id rest ih =>
    intro f h
    have hid : ¬ id = "" := h id (List.mem_cons_self _ _)
    unfold getResponseAll
    rw [@getResponse_byId_ne f s id hid,
        ih f (fun j hj => h j (List.mem_cons_of_mem _ hj))]
    rfl

end TelemetryController

/-! ### Export-walk lemmas -/

namespace ExportAsJSON

theorem nodes_eq (n : DomainObject) : nodes n = n :: nodesUnder n.comp := by
  cases n with
  | mk i m c => rfl

theorem nodesUnder_none : nodesUnder none = [] := rfl

theorem nodesUnder_some (cs : List DomainObject) : nodesUnder (some cs) = nodesList cs := rfl

theorem nodesList_cons (c : DomainObject) (rest : List DomainObject) :
    nodesList (c :: rest) = nodes c ++ nodesList rest := rfl

theorem self_mem_nodes (n : DomainObject) : n ∈ nodes n := by
  rw [nodes_eq]
  exact List.mem_cons_self _ _

theorem mem_nodesList_of_mem {cs : List DomainObject} {c x : DomainObject}
    (hc : c ∈ cs) (hx : x ∈ nodes c) : x ∈ nodesList cs := by
  induction cs with
  | nil => simp at hc
  | cons c0 rest ih =>
    rw [nodesList_cons]
    rcases List.mem_cons.mp hc with h | h
    · subst h
      exact List.mem_append_left _ hx
    · exact List.mem_append_right _ (ih h)

theorem mem_nodesList_elim {cs : List DomainObject} {x : DomainObject}
    (hx : x ∈ nodesList cs) : ∃ c ∈ cs, x ∈ nodes c := by
  induction cs with
  | nil => simp [nodesList] at hx
  | cons c0 rest ih =>
    rw [nodesList_cons] at hx
    rcases List.mem_append.mp hx with h | h
    · exact ⟨c0, List.mem_cons_self _ _, h⟩
    · obtain ⟨c, hc, hxc⟩ := ih h
      exact ⟨c, List.mem_cons_of_mem _ hc, hxc⟩

theorem mem_comp_mem_nodes {c : DomainObject} {ts : List DomainObject}
    (h : c.comp = some ts) {x : DomainObject} (hx : x ∈ nodesList ts) : x ∈ nodes c := by
  rw [nodes_eq, h, nodesUnder_some]
  exact List.mem_cons_of_mem _ hx

theorem mem_eraseIdx_or_get {α : Type} :
    ∀ (l : List α) (i : Nat) (x : α), x ∈ l → x ∈ l.eraseIdx i ∨ l[i]? = some x := by
  intro l
  induction l with
  | nil => intro i x hx; simp at hx
  | cons a rest ih =>
    intro i x hx
    cases i with
    | zero =>
      rcases List.mem_cons.mp hx with h | h
      · right
        rw [h]
        simp
      · left
        simpa [List.eraseIdx] using h
    | succ j =>
      rcases List.mem_cons.mp hx with h | h
      · left
        simp [List.eraseIdx, h]
      · rcases ih j x h with h2 | h2
        · left
          simp [List.eraseIdx, h2]
        · right
          simpa using h2

theorem jsLookup_isSome_setKey {α : Type} (m : List (String × α)) (k' k : String) (v : α)
    (h : (jsLookup m k').isSome = true) : (jsLookup (setKey m k v) k').isSome = true := by
  by_cases hk : k' = k
  · subst hk
    rw [jsLookup_setKey_self]
    rfl
  · rw [jsLookup_setKey_ne m k k' v hk]
    exact h

theorem fireIfZero_fields (fname : String) (st : ActionState) :
    (fireIfZero fname st).tree = st.tree ∧ (fireIfZero fname st).calls = st.calls ∧
    (fireIfZero fname st).tasks = st.tasks := by
  unfold fireIfZero
  split
  · exact ⟨rfl, rfl, rfl⟩
  · exact ⟨rfl, rfl, rfl⟩

theorem fireIfZero_skip {fname : String} {st : ActionState} (h : ¬ st.calls = 0) :
    fireIfZero fname st = st := by
  unfold fireIfZero
  rw [if_neg h]

theorem fireIfZero_fire {fname : String} {st : ActionState} (h : st.calls = 0) :
    fireIfZero fname st = { st with exports := st.exports ++ [(wrap st.tree, fname)] } := by
  unfold fireIfZero
  rw [if_pos h]

theorem write_comp {fname : String} {st : ActionState} {dobj : DomainObject}
    {cs : List DomainObject} (h : dobj.comp = some cs) :
    write fname st dobj = { st with calls := st.calls + 1, tasks := st.tasks ++ [cs] } := by
  unfold write
  rw [h]

theorem write_leaf {fname : String} {st : ActionState} {dobj : DomainObject}
    (h : dobj.comp = none) :
    write fname st dobj = fireIfZero fname { st with calls := st.calls + 1 - 1 } := by
  unfold write
  rw [h]

/-- Effect of a `.then` callback's `children.forEach` stage: the join
counter stays one above the outstanding-fetch count, no export is made,
the tree only grows (by exactly the children's entries), outstanding
fetches are only added (for composition-bearing children), and every
node below one of the children ends up keyed in the tree or below an
outstanding fetch. -/
theorem runChildren_spec (fname : String) :
    ∀ (cs : List DomainObject) (st : ActionState),
      st.calls = (st.tasks.length : Int) + 1 →
      (runChildren fname st cs).calls = ((runChildren fname st cs).tasks.length : Int) + 1 ∧
      (runChildren fname st cs).exports = st.exports ∧
      (∀ k, (jsLookup st.tree k).isSome = true →
        (jsLookup (runChildren fname st cs).tree k).isSome = true) ∧
      (∀ p ∈ (runChildren fname st cs).tree,
        p ∈ st.tree ∨ ∃ c ∈ cs, c.id = p.1 ∧ c.model = p.2) ∧
      (∀ ts ∈ st.tasks, ts ∈ (runChildren fname st cs).tasks) ∧
      (∀ ts ∈ (runChildren fname st cs).tasks,
        ts ∈ st.tasks ∨ ∃ c ∈ cs, c.comp = some ts) ∧
      (∀ c ∈ cs, ∀ n ∈ nodes c,
        (jsLookup (runChildren fname st cs).tree n.id).isSome = true ∨
        ∃ ts ∈ (runChildren fname st cs).tasks, n ∈ nodesList ts) := by
  intro cs
  induction cs with
  | nil =>
    intro st hc
    refine ⟨hc, rfl, fun k hk => hk, fun p hp => Or.inl hp, fun ts h => h,
      fun ts h => Or.inl h, ?_⟩
    intro c hc'
    simp at hc'
  | cons c rest ih =>
    intro st hc
    have hrw : runChildren fname st (c :: rest) =
        runChildren fname (write fname { st with tree := setKey st.tree c.id c.model } c)
          rest := rfl
    rw [hrw]
    cases hcomp : c.comp with
    | some cs' =>
      have hW : write fname ({ st with tree := setKey st.tree c.id c.model } : ActionState) c =
          (⟨setKey st.tree c.id c.model, st.calls + 1, st.tasks ++ [cs'],
            st.exports⟩ : ActionState) := by
        rw [write_comp hcomp]
      rw [hW]
      have hc1 : ((⟨setKey st.tree c.id c.model, st.calls + 1, st.tasks ++ [cs'],
          st.exports⟩ : ActionState)).calls =
          (((⟨setKey st.tree c.id c.model, st.calls + 1, st.tasks ++ [cs'],
          st.exports⟩ : ActionState)).tasks.length : Int) + 1 := by
        show st.calls + 1 = ((st.tasks ++ [cs']).length : Int) + 1
        rw [List.length_append, hc]
        push_cast
        simp
      obtain ⟨ih1, ih2, ih3, ih4, ih5, ih6, ih7⟩ := ih _ hc1
      refine ⟨ih1, ih2, ?_, ?_, ?_, ?_, ?_⟩
      · intro k hk
        exact ih3 k (jsLookup_isSome_setKey st.tree k c.id c.model hk)
      · intro p hp
        rcases ih4 p hp with hmem | ⟨c2, hc2, h1, h2⟩
        · rcases mem_setKey hmem with hmem2 | hmem2
          · exact Or.inl hmem2
          · refine Or.inr ⟨c, List.mem_cons_self _ _, ?_, ?_⟩
            · rw [hmem2]
            · rw [hmem2]
        · exact Or.inr ⟨c2, List.mem_cons_of_mem _ hc2, h1, h2⟩
      · intro ts hts
        exact ih5 ts (List.mem_append_left _ hts)
      · intro ts hts
        rcases ih6 ts hts with hmem | ⟨c2, hc2, h2⟩
        · rcases List.mem_append.mp hmem with hmem2 | hmem2
          · exact Or.inl hmem2
          · have : ts = cs' := List.mem_singleton.mp hmem2
            refine Or.inr ⟨c, List.mem_cons_self _ _, ?_⟩
            rw [this]
            exact hcomp
        · exact Or.inr ⟨c2, List.mem_cons_of_mem _ hc2, h2⟩
      · intro c0 hc0 n hn
        rcases List.mem_cons.mp hc0 with hh | hh
        · subst hh
          rw [nodes_eq, hcomp, nodesUnder_some] at hn
          rcases List.mem_cons.mp hn with hn2 | hn2
          · subst hn2
            refine Or.inl (ih3 n.id ?_)
            rw [jsLookup_setKey_self]
            rfl
          · refine Or.inr ⟨cs', ?_, hn2⟩
            exact ih5 cs' (List.mem_append_right _ (List.mem_singleton.mpr rfl))
        · exact ih7 c0 hh n hn
    | none =>
      have hW : write fname ({ st with tree := setKey st.tree c.id c.model } : ActionState) c =
          (⟨setKey st.tree c.id c.model, st.calls + 1 - 1, st.tasks,
            st.exports⟩ : ActionState) := by
        rw [write_leaf hcomp]
        refine fireIfZero_skip ?_
        show ¬ st.calls + 1 - 1 = 0
        rw [hc]
        omega
      rw [hW]
      have hc1 : ((⟨setKey st.tree c.id c.model, st.calls + 1 - 1, st.tasks,
          st.exports⟩ : ActionState)).calls =
          (((⟨setKey st.tree c.id c.model, st.calls + 1 - 1, st.tasks,
          st.exports⟩ : ActionState)).tasks.length : Int) + 1 := by
        show st.calls + 1 - 1 = (st.tasks.length : Int) + 1
        rw [hc]
        omega
      obtain ⟨ih1, ih2, ih3, ih4, ih5, ih6, ih7⟩ := ih _ hc1
      refine ⟨ih1, ih2, ?_, ?_, ih5, ?_, ?_⟩
      · intro k hk
        exact ih3 k (jsLookup_isSome_setKey st.tree k c.id c.model hk)
      · intro p hp
        rcases ih4 p hp with hmem | ⟨c2, hc2, h1, h2⟩
        · rcases mem_setKey hmem with hmem2 | hmem2
          · exact Or.inl hmem2
          · refine Or.inr ⟨c, List.mem_cons_self _ _, ?_, ?_⟩
            · rw [hmem2]
            · rw [hmem2]
        · exact Or.inr ⟨c2, List.mem_cons_of_mem _ hc2, h1, h2⟩
      · intro ts hts
        rcases ih6 ts hts with hmem | ⟨c2, hc2, h2⟩
        · exact Or.inl hmem
        · exact Or.inr ⟨c2, List.mem_cons_of_mem _ hc2, h2⟩
      · intro c0 hc0 n hn
        rcases List.mem_cons.mp hc0 with hh | hh
        · subst hh
          rw [nodes_eq, hcomp, nodesUnder_none] at hn
          rcases List.mem_cons.mp hn with hn2 | hn2
          · subst hn2
            refine Or.inl (ih3 n.id ?_)
            rw [jsLookup_setKey_self]
            rfl
          · simp at hn2
        · exact ih7 c0 hh n hn

/-- One promise settlement preserves the export-walk invariant. -/
theorem ExportInv_schedStep {root : DomainObject} {st : ActionState} (i : Nat)
    (h : ExportInv root st) :
    ExportInv root (schedStep (exportFilename root) st i) := by
  unfold schedStep
  split
  · exact h
  · rename_i cs hget
    have hlt : i < st.tasks.length := (List.getElem?_eq_some.mp hget).1
    have hcsmem : cs ∈ st.tasks := by
      obtain ⟨hlt2, he⟩ := List.getElem?_eq_some.mp hget
      exact he ▸ List.getElem_mem hlt2
    have hlen : (st.tasks.eraseIdx i).length + 1 = st.tasks.length :=
      List.length_eraseIdx_add_one hlt
    have hne : st.tasks ≠ [] := by
      intro hnil
      rw [hnil] at hget
      simp at hget
    have hex0 : st.exports = [] := h.2.2.2.2.2 hne
    have hc1 : ({ st with tasks := st.tasks.eraseIdx i } : ActionState).calls =
        (({ st with tasks := st.tasks.eraseIdx i } : ActionState).tasks.length : Int) + 1 := by
      show st.calls = ((st.tasks.eraseIdx i).length : Int) + 1
      rw [h.1]
      omega
    obtain ⟨ih1, ih2, ih3, ih4, ih5, ih6, ih7⟩ :=
      runChildren_spec (exportFilename root) cs ({ st with tasks := st.tasks.eraseIdx i }) hc1
    unfold runTaskBody
    generalize hR :
      runChildren (exportFilename root) ({ st with tasks := st.tasks.eraseIdx i }) cs = R
    rw [hR] at ih1 ih2 ih3 ih4 ih5 ih6 ih7
    have hcovR : ∀ n ∈ nodes root, (jsLookup R.tree n.id).isSome = true ∨
        ∃ ts ∈ R.tasks, n ∈ nodesList ts := by
      intro n hn
      rcases h.2.1 n hn with hk | ⟨ts, hts, hnts⟩
      · exact Or.inl (ih3 n.id hk)
      · rcases mem_eraseIdx_or_get st.tasks i ts hts with hmem | hgeti
        · exact Or.inr ⟨ts, ih5 ts hmem, hnts⟩
        · have hts2 : ts = cs := by
            rw [hget] at hgeti
            exact (Option.some_inj.mp hgeti).symm
          subst hts2
          obtain ⟨c, hc, hnc⟩ := mem_nodesList_elim hnts
          exact ih7 c hc n hnc
    have hsubR : ∀ ts ∈ R.tasks, ∀ x ∈ nodesList ts, x ∈ nodes root := by
      intro ts hts x hx
      rcases ih6 ts hts with hmem | ⟨c, hcin, hcomp⟩
      · exact h.2.2.1 ts (List.mem_of_mem_eraseIdx hmem) x hx
      · have hxc : x ∈ nodes c := mem_comp_mem_nodes hcomp hx
        exact h.2.2.1 cs hcsmem x (mem_nodesList_of_mem hcin hxc)
    have hprovR : ∀ p ∈ R.tree, ∃ n, n ∈ nodes root ∧ n.id = p.1 ∧ n.model = p.2 := by
      intro p hp
      rcases ih4 p hp with hmem | ⟨c, hcin, h1, h2⟩
      · exact h.2.2.2.1 p hmem
      · exact ⟨c, h.2.2.1 cs hcsmem c (mem_nodesList_of_mem hcin (self_mem_nodes c)), h1, h2⟩
    rcases eq_or_ne R.tasks [] with hT | hT
    · have hzero : (({ R with calls := R.calls - 1 } : ActionState)).calls = 0 := by
        show R.calls - 1 = 0
        rw [ih1, hT]
        simp
      rw [fireIfZero_fire hzero]
      refine ⟨?_, ?_, ?_, ?_, ?_, ?_⟩
      · show R.calls - 1 = (R.tasks.length : Int)
        rw [ih1, hT]
        simp
      · intro n hn
        exact hcovR n hn
      · intro ts hts x hx
        exact hsubR ts hts x hx
      · intro p hp
        exact hprovR p hp
      · intro _
        show R.exports ++ [(wrap R.tree, exportFilename root)] =
          [(wrap R.tree, exportFilename root)]
        rw [ih2]
        simp [hex0]
      · intro hcon
        exact absurd hT hcon
    · have hnz : ¬ (({ R with calls := R.calls - 1 } : ActionState)).calls = 0 := by
        show ¬ R.calls - 1 = 0
        rw [ih1]
        have : 0 < R.tasks.length := List.length_pos.mpr hT
        omega
      rw [fireIfZero_skip hnz]
      refine ⟨?_, ?_, ?_, ?_, ?_, ?_⟩
      · show R.calls - 1 = (R.tasks.length : Int)
        rw [ih1]
        omega
      · intro n hn
        exact hcovR n hn
      · intro ts hts x hx
        exact hsubR ts hts x hx
      · intro p hp
        exact hprovR p hp
      · intro hcon
        exact absurd hcon hT
      · intro _
        show R.exports = []
        rw [ih2]
        exact hex0

/-- A whole settlement schedule preserves the export-walk invariant. -/
theorem ExportInv_run (root : DomainObject) :
    ∀ (sched : List Nat) (st : ActionState), ExportInv root st →
      ExportInv root (run (exportFilename root) st sched) := by
  intro sched
  induction sched with
  | nil => intro st h; exact h
  | cons i rest ih =>
    intro st h
    have hrw : run (exportFilename root) st (i :: rest) =
        run (exportFilename root) (schedStep (exportFilename root) st i) rest := rfl
    rw [hrw]
    exact ih _ (ExportInv_schedStep i h)

/-- `perform()` establishes the export-walk invariant. -/
theorem ExportInv_perform (root : DomainObject) : ExportInv root (perform root) := by
  cases root with
  | mk i m c =>
    show ExportInv (DomainObject.mk i m c) (write (exportFilename (DomainObject.mk i m c))
      ({ tree := setKey [] i m, calls := 0, tasks := [], exports := [] } : ActionState)
      (DomainObject.mk i m c))
    cases c with
    | some cs =>
      rw [write_comp (show (DomainObject.mk i m (some cs)).comp = some cs from rfl)]
      refine ⟨?_, ?_, ?_, ?_, ?_, ?_⟩
      · show (0 : Int) + 1 = (([] ++ [cs] : List (List DomainObject)).length : Int)
        simp
      · intro n hn
        rw [nodes_eq] at hn
        rcases List.mem_cons.mp hn with hn2 | hn2
        · subst hn2
          left
          rw [show (DomainObject.mk i m (some cs)).id = i from rfl, jsLookup_setKey_self]
          rfl
        · right
          refine ⟨cs, by simp, ?_⟩
          rw [show (DomainObject.mk i m (some cs)).comp = some cs from rfl,
            nodesUnder_some] at hn2
          exact hn2
      · intro ts hts x hx
        have hts2 : ts = cs := by simpa using hts
        subst hts2
        exact mem_comp_mem_nodes
          (show (DomainObject.mk i m (some ts)).comp = some ts from rfl) hx
      · intro p hp
        have hp2 : p = (i, m) := by simpa [setKey] using hp
        subst hp2
        exact ⟨DomainObject.mk i m (some cs), self_mem_nodes _, rfl, rfl⟩
      · intro hcon
        simp at hcon
      · intro _
        rfl
    | none =>
      rw [write_leaf (show (DomainObject.mk i m none).comp = none from rfl)]
      rw [fireIfZero_fire (show ((0 : Int) + 1 - 1) = 0 by simp)]
      refine ⟨?_, ?_, ?_, ?_, ?_, ?_⟩
      · show (0 : Int) + 1 - 1 = (([] : List (List DomainObject)).length : Int)
        simp
      · intro n hn
        rw [nodes_eq] at hn
        rcases List.mem_cons.mp hn with hn2 | hn2
        · subst hn2
          left
          rw [show (DomainObject.mk i m none).id = i from rfl, jsLookup_setKey_self]
          rfl
        · rw [show (DomainObject.mk i m none).comp = none from rfl, nodesUnder_none] at hn2
          simp at hn2
      · intro ts hts x hx
        simp at hts
      · intro p hp
        have hp2 : p = (i, m) := by simpa [setKey] using hp
        subst hp2
        exact ⟨DomainObject.mk i m none, self_mem_nodes _, rfl, rfl⟩
      · intro _
        rfl
      · intro hcon
        exact absurd rfl hcon

end ExportAsJSON

/-! ### Helper facts for the poll loop, the broadcast guard, and the
concrete example states -/

namespace TelemetryController

theorem reach_exS1 : Reach exS1 :=
  Reach.watch (some objA) none Reach.init rfl

theorem reach_exS2 : Reach exS2 :=
  Reach.settle 0 (Outcome.success [("x", "1")]) reach_exS1

theorem reach_exS3 : Reach exS3 :=
  Reach.request (some exReq) reach_exS2 rfl

theorem reach_exT2 : Reach exT2 :=
  Reach.watch (some objB) none reach_exS1 rfl

theorem startTimeout_of_refreshing {s : Self} (h : ¬ s.refreshing = false) :
    startTimeout s = s := by
  unfold startTimeout
  rw [if_neg h]

theorem startTimeout_fields (s : Self) :
    (startTimeout s).pending = s.pending ∧ (startTimeout s).fetches = s.fetches ∧
    (startTimeout s).ids = s.ids ∧ (startTimeout s).response = s.response := by
  unfold startTimeout
  split
  · split
    · exact ⟨rfl, rfl, rfl, rfl⟩
    · exact ⟨rfl, rfl, rfl, rfl⟩
  · exact ⟨rfl, rfl, rfl, rfl⟩

theorem startTimeout_shape {x : Self} (hx : x.refreshing = false) :
    (startTimeout x).refreshing = x.interval.isSome ∧
    (startTimeout x).pollTimers =
      (match x.interval with
       | none => x.pollTimers
       | some v => x.pollTimers ++ [v]) := by
  unfold startTimeout
  rw [if_pos hx]
  cases hi : x.interval with
  | none => exact ⟨hx, rfl⟩
  | some v => exact ⟨rfl, rfl⟩

theorem runPollTimer_cons {x : Self} {d0 : Nat} {rest : List Nat}
    (hpt : x.pollTimers = d0 :: rest) :
    runPollTimer x = pollTimeoutBody { x with pollTimers := rest } := by
  unfold runPollTimer
  rw [hpt]

theorem pollTimeoutBody_of_requestTelemetry {x s1 : Self}
    (hq : x.request.isSome = true) (hrt : requestTelemetry x false = some s1) :
    pollTimeoutBody x = some (startTimeout { s1 with refreshing := false }) := by
  unfold pollTimeoutBody
  rw [if_pos hq, hrt]

theorem pollTimeoutBody_of_noRequest {x : Self} (hq : ¬ x.request.isSome = true) :
    pollTimeoutBody x = some (startTimeout { x with refreshing := false }) := by
  unfold pollTimeoutBody
  rw [if_neg hq]

theorem doBroadcast_of_false {s : Self} (h : s.broadcasting = false) :
    doBroadcast s =
      { s with broadcasting := true, broadcastScheduled := s.broadcastScheduled + 1 } := by
  unfold doBroadcast
  rw [if_pos h]

theorem doBroadcast_of_true {s : Self} (h : ¬ s.broadcasting = false) :
    doBroadcast s = s := by
  unfold doBroadcast
  rw [if_neg h]

theorem doBroadcast_iterate_stable :
    ∀ (k : Nat) (s : Self), s.broadcasting = true → doBroadcast^[k] s = s := by
  intro k
  induction k with
  | zero => intro s _; rfl
  | succ m ih =>
    intro s h
    rw [Function.iterate_succ_apply, doBroadcast_of_true (by rw [h]; simp)]
    exact ih s h

end TelemetryController

/-! ### Claim theorems -/

namespace TelemetryController

/-- C1 (amended): for a `requestData(R)` call made with no fetches
outstanding, one tracked fetch is issued per tracked object with a
telemetry capability (the missing-capability fallback increments and
immediately decrements the pending counter, issuing no fetch), and if
every issued fetch settles by fulfillment, then once all of them have
settled the global pending counter has returned to its pre-call value.
(A fetch that settles by rejection skips `storeData` and never
decrements the counter; see the counterexample.) -/
theorem claim_C1_amended (s s' : Self) (r : Option Req) (steps : List (Nat × Data))
    (_hreach : Reach s) (hnf : s.fetches = [])
    (hrd : requestData s r = some s')
    (hall : (settleSuccessions s' steps).fetches = []) :
    s'.pending = s.pending + (s'.fetches.length : Int) ∧
    (∀ f ∈ s'.fetches, f.track = true) ∧
    (settleSuccessions s' steps).pending = s.pending := by
  have heq := requestTelemetry_eq hrd
  have htrk : ∀ f ∈ s'.fetches, f.track = true := by
    rw [heq]
    intro f hf
    rcases List.mem_append.mp hf with hf2 | hf2
    · rw [hnf] at hf2
      simp at hf2
    · exact track_of_mem_issuedOf hf2
  have hpend : s'.pending = s.pending + (s'.fetches.length : Int) := by
    rw [heq]
    simp [issuedFetches, hnf]
  obtain ⟨_, hQ⟩ := settleSuccessions_account steps s' htrk
  rw [hall] at hQ
  simp at hQ
  exact ⟨hpend, htrk, by omega⟩

/-- C1 counterexample: from the reachable state `exS2` (one tracked
object, pending counter 0, no fetch outstanding), `requestData(exReq)`
issues one tracked fetch; settling that single fetch by rejection
settles every issued fetch, yet the global pending counter ends at 1,
not at its pre-call value 0 — the rejection path never decrements it. -/
theorem claim_C1_counterexample :
    Reach exS2 ∧
    exS2.pending = 0 ∧
    requestData exS2 (some exReq) = some exS3 ∧
    exS3.fetches.length = 1 ∧
    exS4.fetches = [] ∧
    exS4.pending = 1 :=
  ⟨reach_exS2, rfl, rfl, rfl, rfl, rfl⟩

/-- C1 witness: the amended theorem applied to the concrete run where
the single issued fetch settles by fulfillment. -/
theorem claim_C1_witness :
    exS3.pending = exS2.pending + (exS3.fetches.length : Int) ∧
    (∀ f ∈ exS3.fetches, f.track = true) ∧
    (settleSuccessions exS3 [(0, [("x", "2")])]).pending = exS2.pending :=
  claim_C1_amended exS2 exS3 (some exReq) [(0, [("x", "2")])] reach_exS2 rfl rfl rfl

/-- C3 (amended): whenever the represented object changes, the
identifier list and the entries for the new identifiers are rebuilt
together, so every identifier in the list has exactly one entry in the
container map; however, entries for identifiers no longer in the list
are retained in the map rather than dropped (see the counterexample). -/
theorem claim_C3_amended (s : Self) (h : Reach s) :
    ∀ id ∈ s.ids, ∃ e, jsLookup s.response id = some e ∧ (keys s.response).count id = 1 := by
  intro id hid
  have hinv := reach_InvTC h
  obtain ⟨i, hi⟩ := List.mem_iff_getElem?.mp hid
  obtain ⟨e, he, _⟩ := hinv.2.2.1 i id hi
  exact ⟨e, he,
    List.count_eq_one_of_mem hinv.2.2.2 (mem_keys_of_jsLookup_eq_some he)⟩

/-- C3 counterexample: after the represented object changes from `objA`
to `objB`, the identifier list is `["b"]` but the container map still
holds an entry for the dropped identifier `"a"` — old entries are never
deleted, contradicting the claim that the mapping contains no entry for
an identifier no longer in the list. -/
theorem claim_C3_counterexample :
    Reach exT2 ∧
    getTelemetryObjectsWatch exS1 (some objB) none = some exT2 ∧
    exT2.ids = ["b"] ∧
    (jsLookup exT2.response "a").isSome = true :=
  ⟨reach_exT2, rfl, rfl, rfl⟩

/-- C3 witness: the amended theorem applied to the reachable state
`exS1` and its tracked identifier. -/
theorem claim_C3_witness :
    ∃ e, jsLookup exS1.response "a" = some e ∧ (keys exS1.response).count "a" = 1 :=
  claim_C3_amended exS1 reach_exS1 "a" (by decide)

/-- C6 (amended): immediately after entry (re)construction for a
changed represented object, a tracked fetch across the new object set
is always issued: the request-parameters field is initialized to the
empty object and is never null or undefined in any reachable state, so
the truthiness guard before the fetch sweep always passes.  In
particular reconstruction issues a tracked fetch even when no request
has ever been set (see the counterexample). -/
theorem claim_C6_amended (s : Self) (h : Reach s) :
    s.request.isSome = true ∧
    ∀ (objs : List DomainObject) (s1 : Self), rebuildContainers s objs = some s1 →
      buildResponseContainers s objs = requestTelemetry s1 true := by
  have hinv := reach_InvTC h
  refine ⟨hinv.1, ?_⟩
  intro objs s1 hrb
  unfold buildResponseContainers
  rw [hrb]
  have hq : s1.request.isSome = true := by
    obtain ⟨ms, hms, hs1⟩ := rebuildContainers_eq hrb
    rw [hs1]
    show (objs.foldl buildResponseContainer s).request.isSome = true
    rw [buildRC_fold_request]
    exact hinv.1
  show (if s1.request.isSome = true then requestTelemetry s1 true else some s1) =
    requestTelemetry s1 true
  rw [if_pos hq]

/-- C6 counterexample: on the freshly constructed controller `init` no
call to `requestData` has ever been made, yet the first represented
-object resolution issues a tracked fetch (one fetch outstanding,
pending counter 1), because the request field is initialized to the
truthy empty object rather than to null. -/
theorem claim_C6_counterexample :
    init.request = some [] ∧
    getTelemetryObjectsWatch init (some objA) none = some exS1 ∧
    exS1.fetches.length = 1 ∧
    exS1.pending = 1 :=
  ⟨rfl, rfl, rfl, rfl⟩

/-- C6 witness: the amended theorem applied to the reachable state
`exS1` and a concrete rebuild. -/
theorem claim_C6_witness :
    exS1.request.isSome = true ∧
    buildResponseContainers exS1 [objB] =
      requestTelemetry ((rebuildContainers exS1 [objB]).getD exS1) true := by
  have h := claim_C6_amended exS1 reach_exS1
  exact ⟨h.1, h.2 [objB] ((rebuildContainers exS1 [objB]).getD exS1) rfl⟩

end TelemetryController

namespace TelemetryController

/-- C4: in every reachable state (with the tracked identifiers truthy,
i.e. non-empty strings — the degenerate falsy identifier is the subject
of C10), `getMetadata()`, `getTelemetryObjects()` and the no-argument
`getResponse()` return sequences of the same length, and the elements
at each index are the metadata snapshot, domain-object reference and
latest payload of one and the same tracked entry — the container of the
identifier at that position in tracking order. -/
theorem claim_C4 (s : Self) (f : Nat) (h : Reach s) (hids : ∀ id ∈ s.ids, ¬ id = "") :
    ∃ objs resps,
      getTelemetryObjects s = some objs ∧
      getResponse (f + 1 + 1) s none = some (RResult.arr resps) ∧
      (getMetadata s).length = s.ids.length ∧
      objs.length = s.ids.length ∧
      resps.length = s.ids.length ∧
      ∀ (i : Nat) (id : String), s.ids[i]? = some id →
        ∃ e, jsLookup s.response id = some e ∧
          (getMetadata s)[i]? = some e.metadata ∧
          objs[i]? = some e.domainObject ∧
          resps[i]? = some (RResult.val (some e.data)) := by
  have hinv := reach_InvTC h
  have hallsome : ∀ id ∈ s.ids, (jsLookup s.response id).isSome := by
    intro id hid
    obtain ⟨i, hi⟩ := List.mem_iff_getElem?.mp hid
    obtain ⟨e, he, _⟩ := hinv.2.2.1 i id hi
    rw [he]
    rfl
  obtain ⟨objs, hobjs, holen, hoptr⟩ := lookupObjects_spec s.ids s.response hallsome
  refine ⟨objs, s.ids.map (fun id =>
    RResult.val ((jsLookup s.response id).map (fun e => e.data))), hobjs, ?_, hinv.2.1,
    holen, by simp, ?_⟩
  · have h1 := @getResponse_none_eq (f + 1) s
    have h2 := @getResponseAll_eq s s.ids f hids
    rw [h2] at h1
    exact h1
  · intro i id hi
    obtain ⟨e, he, hmd⟩ := hinv.2.2.1 i id hi
    obtain ⟨e2, he2, hobj⟩ := hoptr i id hi
    rw [he] at he2
    cases he2
    refine ⟨e, he, hmd, hobj, ?_⟩
    rw [List.getElem?_map, hi]
    simp [he]

/-- C4 witness: the alignment theorem applied to the concrete reachable
state `exS1`. -/
theorem claim_C4_witness :
    (∀ id ∈ exS1.ids, ¬ id = "") ∧
    (∃ objs resps,
      getTelemetryObjects exS1 = some objs ∧
      getResponse (0 + 1 + 1) exS1 none = some (RResult.arr resps) ∧
      (getMetadata exS1).length = exS1.ids.length ∧
      objs.length = exS1.ids.length ∧
      resps.length = exS1.ids.length ∧
      ∀ (i : Nat) (id : String), exS1.ids[i]? = some id →
        ∃ e, jsLookup exS1.response id = some e ∧
          (getMetadata exS1)[i]? = some e.metadata ∧
          objs[i]? = some e.domainObject ∧
          resps[i]? = some (RResult.val (some e.data))) :=
  ⟨by decide, claim_C4 exS1 0 reach_exS1 (by decide)⟩

/-- C5 (amended): `getResponse` returns the tracked entry's latest
payload when given the (truthy) identifier or domain object of a
tracked entry; it returns JS `undefined` — not an empty payload — when
given a truthy identifier with no entry in the container map (the read
is `(self.response[id] || \x7b\x7d).data`, and the empty object has no
`data` property); with no argument it returns the ordered sequence of
all tracked entries' payloads. -/
theorem claim_C5_amended (s : Self) (f : Nat) :
    (∀ (id : String) (e : Entry), ¬ id = "" → jsLookup s.response id = some e →
      getResponse (f + 1) s (some (RArg.byId id)) = some (RResult.val (some e.data))) ∧
    (∀ (dobj : DomainObject) (e : Entry), ¬ dobj.id = "" →
      jsLookup s.response dobj.id = some e →
      getResponse (f + 1) s (some (RArg.byObj dobj)) = some (RResult.val (some e.data))) ∧
    (∀ (id : String), ¬ id = "" → jsLookup s.response id = none →
      getResponse (f + 1) s (some (RArg.byId id)) = some (RResult.val none)) ∧
    ((∀ id ∈ s.ids, ¬ id = "") →
      getResponse (f + 1 + 1) s none =
        some (RResult.arr (s.ids.map (fun id =>
          RResult.val ((jsLookup s.response id).map (fun e => e.data)))))) := by
  refine ⟨?_, ?_, ?_, ?_⟩
  · intro id e hne he
    rw [getResponse_byId_ne hne, he]
    rfl
  · intro dobj e hne he
    rw [getResponse_byObj_ne hne, he]
    rfl
  · intro id hne he
    rw [getResponse_byId_ne hne, he]
    rfl
  · intro hids
    have h1 := @getResponse_none_eq (f + 1) s
    have h2 := @getResponseAll_eq s s.ids f hids
    rw [h2] at h1
    exact h1

/-- C5 counterexample: on the constructed controller, `getResponse`
with the unknown identifier `"x"` returns JS `undefined` (`none`), which
is not the empty payload `\x7b\x7d` the claim promises. -/
theorem claim_C5_counterexample :
    getResponse 2 init (some (RArg.byId "x")) = some (RResult.val none) ∧
    RResult.val (none : Option Data) ≠ RResult.val (some ([] : Data)) := by
  constructor
  · exact @getResponse_byId_ne 1 init "x" (by decide)
  · intro hcon
    simp at hcon

/-- C5 witness: the amended theorem applied to the concrete state
`exS2`, covering the tracked-identifier, tracked-object, unknown-
identifier and no-argument forms. -/
theorem claim_C5_witness :
    getResponse 1 exS2 (some (RArg.byId "a")) =
      some (RResult.val (some [("x", "1")])) ∧
    getResponse 1 exS2 (some (RArg.byObj objA)) =
      some (RResult.val (some [("x", "1")])) ∧
    getResponse 1 exS2 (some (RArg.byId "zz")) = some (RResult.val none) ∧
    getResponse 2 exS2 none =
      some (RResult.arr [RResult.val (some [("x", "1")])]) := by
  have h := claim_C5_amended exS2 0
  refine ⟨?_, ?_, ?_, ?_⟩
  · exact h.1 "a" ⟨"A", objA, mdA, 0, [("x", "1")], 0⟩ (by decide) rfl
  · exact h.2.1 objA ⟨"A", objA, mdA, 0, [("x", "1")], 0⟩ (by decide) rfl
  · exact h.2.2.1 "zz" (by decide) rfl
  · exact h.2.2.2 (by decide)

/-- C10: a falsy `getResponse` argument — in particular the empty-string
identifier — is routed to the no-argument branch: the guard computes
`id = arg && ...` and `if (id)` rejects the empty string, so the call
returns the ordered array of all tracked entries' payloads instead of a
single entry's payload. -/
theorem claim_C10 (s : Self) (f : Nat) (hids : ∀ id ∈ s.ids, ¬ id = "") :
    getResponse (f + 1 + 1) s (some (RArg.byId "")) = getResponse (f + 1 + 1) s none ∧
    getResponse (f + 1 + 1) s (some (RArg.byId "")) =
      some (RResult.arr (s.ids.map (fun id =>
        RResult.val ((jsLookup s.response id).map (fun e => e.data))))) := by
  constructor
  · rw [getResponse_emptyId, getResponse_none_eq]
  · rw [getResponse_emptyId, @getResponseAll_eq s s.ids f hids]
    rfl

/-- C10 witness: the empty-string identifier on the concrete state
`exS2` yields the same full payload array as the no-argument call. -/
theorem claim_C10_witness :
    getResponse 2 exS2 (some (RArg.byId "")) = getResponse 2 exS2 none ∧
    getResponse 2 exS2 (some (RArg.byId "")) =
      some (RResult.arr [RResult.val (some [("x", "1")])]) := by
  have h := claim_C10 exS2 0 (by decide)
  exact ⟨h.1, h.2⟩

end TelemetryController

namespace TelemetryController

/-- C7: any number `n ≥ 1` of fetch-settlement notifications arriving
while no broadcast is armed coalesce into exactly one scheduled
`telemetryUpdate` broadcast, and none is emitted synchronously; the
broadcast is emitted only when the deferred `$timeout` body runs in a
later turn, which clears the guard flag and emits exactly once. -/
theorem claim_C7 (s : Self) (n : Nat) (hb : s.broadcasting = false) (hn : 0 < n) :
    (doBroadcast^[n] s).broadcastScheduled = s.broadcastScheduled + 1 ∧
    (doBroadcast^[n] s).broadcastEmitted = s.broadcastEmitted ∧
    (doBroadcast^[n] s).broadcasting = true ∧
    (broadcastTimeoutBody (doBroadcast^[n] s)).broadcastEmitted = s.broadcastEmitted + 1 ∧
    (broadcastTimeoutBody (doBroadcast^[n] s)).broadcasting = false ∧
    (broadcastTimeoutBody (doBroadcast^[n] s)).broadcastScheduled = s.broadcastScheduled := by
  cases n with
  | zero => cases hn
  | succ m =>
    have hit : doBroadcast^[m + 1] s =
        { s with broadcasting := true,
                 broadcastScheduled := s.broadcastScheduled + 1 } := by
      rw [Function.iterate_succ_apply, doBroadcast_of_false hb]
      exact doBroadcast_iterate_stable m _ rfl
    rw [hit]
    have hfire : broadcastTimeoutBody ({ s with
        broadcasting := true,
        broadcastScheduled := s.broadcastScheduled + 1 } : Self) =
        ({ s with
           broadcasting := false,
           broadcastScheduled := s.broadcastScheduled,
           broadcastEmitted := s.broadcastEmitted + 1 } : Self) := by
      unfold broadcastTimeoutBody
      rw [if_pos (by show 0 < s.broadcastScheduled + 1; omega)]
      simp
    rw [hfire]
    exact ⟨rfl, rfl, rfl, rfl, rfl, rfl⟩

/-- C7 witness: two settlements in one turn on the freshly initialized
state produce one scheduled broadcast, emitted by the deferred body. -/
theorem claim_C7_witness :
    (doBroadcast^[2] initialSelf).broadcastScheduled =
      initialSelf.broadcastScheduled + 1 ∧
    (doBroadcast^[2] initialSelf).broadcastEmitted = initialSelf.broadcastEmitted ∧
    (doBroadcast^[2] initialSelf).broadcasting = true ∧
    (broadcastTimeoutBody (doBroadcast^[2] initialSelf)).broadcastEmitted =
      initialSelf.broadcastEmitted + 1 ∧
    (broadcastTimeoutBody (doBroadcast^[2] initialSelf)).broadcasting = false ∧
    (broadcastTimeoutBody (doBroadcast^[2] initialSelf)).broadcastScheduled =
      initialSelf.broadcastScheduled :=
  claim_C7 initialSelf 2 rfl (by decide)

/-- C8: while a poll wait is outstanding (`refreshing` set, one poll
timer armed with delay `d0`), `setRefreshInterval(dnew)` only updates
the interval field — the armed timer keeps its original delay and is
not canceled (`startTimeout` is a no-op while refreshing).  When the
outstanding wait completes, the body reschedules if and only if the new
interval is defined, using the new delay; with the interval set to
undefined the wait completes normally and no further timer is armed. -/
theorem claim_C8 (s : Self) (d0 : Nat) (dnew : Option Nat)
    (hr : s.refreshing = true) (ht : s.pollTimers = [d0])
    (hall : ∀ id ∈ s.ids, (jsLookup s.response id).isSome) :
    (setRefreshInterval s dnew).pollTimers = [d0] ∧
    (setRefreshInterval s dnew).interval = dnew ∧
    (setRefreshInterval s dnew).refreshing = true ∧
    ∃ s2, runPollTimer (setRefreshInterval s dnew) = some s2 ∧
      s2.refreshing = dnew.isSome ∧
      s2.pollTimers = (match dnew with | none => [] | some v => [v]) := by
  have hs1eq : setRefreshInterval s dnew = ({ s with interval := dnew } : Self) := by
    unfold setRefreshInterval
    exact startTimeout_of_refreshing (by show ¬ s.refreshing = false; rw [hr]; simp)
  refine ⟨by rw [hs1eq]; exact ht, by rw [hs1eq], by rw [hs1eq]; exact hr, ?_⟩
  rw [hs1eq]
  have hcons := runPollTimer_cons
    (show ({ s with interval := dnew } : Self).pollTimers = d0 :: [] from ht)
  rw [hcons]
  by_cases hq : s.request.isSome = true
  · obtain ⟨s1, hrt⟩ := @requestTelemetry_isSome
      ({ { s with interval := dnew } with pollTimers := [] } : Self) false hall
    have heq := requestTelemetry_eq hrt
    have hbody := pollTimeoutBody_of_requestTelemetry
      (show ({ { s with interval := dnew } with
        pollTimers := ([] : List Nat) } : Self).request.isSome = true from hq) hrt
    refine ⟨startTimeout ({ s1 with refreshing := false } : Self), hbody, ?_, ?_⟩
    · have hsh := startTimeout_shape
        (show ({ s1 with refreshing := false } : Self).refreshing = false from rfl)
      rw [hsh.1]
      show s1.interval.isSome = dnew.isSome
      rw [heq]
    · have hsh := startTimeout_shape
        (show ({ s1 with refreshing := false } : Self).refreshing = false from rfl)
      rw [hsh.2]
      have hint : s1.interval = dnew := by rw [heq]
      have hpt : s1.pollTimers = [] := by rw [heq]
      show (match s1.interval with
        | none => ({ s1 with refreshing := false } : Self).pollTimers
        | some v => ({ s1 with refreshing := false } : Self).pollTimers ++ [v]) =
        (match dnew with | none => [] | some v => [v])
      rw [hint]
      cases dnew with
      | none => exact hpt
      | some v =>
        show s1.pollTimers ++ [v] = [v]
        rw [hpt]
        rfl
  · have hbody := pollTimeoutBody_of_noRequest
      (show ¬ ({ { s with interval := dnew } with
        pollTimers := [] } : Self).request.isSome = true from hq)
    refine ⟨_, hbody, ?_, ?_⟩
    · have hsh := @startTimeout_shape ({ { { s with interval := dnew } with
        pollTimers := ([] : List Nat) } with refreshing := false } : Self) rfl
      rw [hsh.1]
    · have hsh := @startTimeout_shape ({ { { s with interval := dnew } with
        pollTimers := ([] : List Nat) } with refreshing := false } : Self) rfl
      rw [hsh.2]
      cases dnew with
      | none => rfl
      | some v => rfl

end TelemetryController

namespace TelemetryController

/-- C8 witness: the in-flight wait of the concrete state `exS1` (timer
armed with the default 1000 ms) survives `setRefreshInterval(undefined)`
untouched, and after it completes no further timer is armed. -/
theorem claim_C8_witness :
    (setRefreshInterval exS1 none).pollTimers = [1000] ∧
    (setRefreshInterval exS1 none).interval = none ∧
    (setRefreshInterval exS1 none).refreshing = true ∧
    ∃ s2, runPollTimer (setRefreshInterval exS1 none) = some s2 ∧
      s2.refreshing = (none : Option Nat).isSome ∧
      s2.pollTimers = (match (none : Option Nat) with | none => [] | some v => [v]) :=
  claim_C8 exS1 1000 none rfl rfl (by decide)

theorem pollTimeoutBody_of_requestTelemetry_none {x : Self}
    (hq : x.request.isSome = true) (hrt : requestTelemetry x false = none) :
    pollTimeoutBody x = none := by
  unfold pollTimeoutBody
  rw [if_pos hq, hrt]

/-- C9: the constructor initializes the poll interval to 1000 ms and
the request parameters to the (truthy) empty object, and arms the poll
loop immediately — before any `requestData` or `setRefreshInterval`
call; consequently, whenever a poll timer fires in any reachable state,
the body's `if (self.request)` guard passes and an untracked fetch is
issued for every tracked object with a telemetry capability, leaving
the pending counter unchanged. -/
theorem claim_C9 :
    init.interval = some 1000 ∧
    init.request = some [] ∧
    init.refreshing = true ∧
    init.pollTimers = [1000] ∧
    ∀ (s s' : Self), Reach s → s.pollTimers ≠ [] → runPollTimer s = some s' →
      s'.pending = s.pending ∧
      s'.fetches = s.fetches ++ issuedOf s.response s.request false s.ids := by
  refine ⟨rfl, rfl, rfl, rfl, ?_⟩
  intro s s' hreach hne hrun
  have hinv := reach_InvTC hreach
  cases hpt : s.pollTimers with
  | nil => exact absurd hpt hne
  | cons d rest =>
    rw [runPollTimer_cons hpt] at hrun
    cases hrt : requestTelemetry ({ s with pollTimers := rest } : Self) false with
    | none =>
      rw [pollTimeoutBody_of_requestTelemetry_none
        (show ({ s with pollTimers := rest } : Self).request.isSome = true from hinv.1)
        hrt] at hrun
      cases hrun
    | some s1 =>
      rw [pollTimeoutBody_of_requestTelemetry
        (show ({ s with pollTimers := rest } : Self).request.isSome = true from hinv.1)
        hrt] at hrun
      have heq := requestTelemetry_eq hrt
      have hs' : s' = startTimeout ({ s1 with refreshing := false } : Self) :=
        (Option.some_inj.mp hrun).symm
      obtain ⟨hstp, hstf, _, _⟩ :=
        startTimeout_fields ({ s1 with refreshing := false } : Self)
      constructor
      · rw [hs', hstp]
        show s1.pending = s.pending
        rw [heq]
        simp
      · rw [hs', hstf]
        show s1.fetches = s.fetches ++ issuedOf s.response s.request false s.ids
        rw [heq]
        rfl

end TelemetryController

namespace TelemetryController

/-- C9 witness: the fifth conjunct of the theorem applied to the
concrete reachable state `exS1`, whose poll timer is armed. -/
theorem claim_C9_witness :
    ((runPollTimer exS1).getD exS1).pending = exS1.pending ∧
    ((runPollTimer exS1).getD exS1).fetches =
      exS1.fetches ++ issuedOf exS1.response exS1.request false exS1.ids :=
  claim_C9.2.2.2.2 exS1 ((runPollTimer exS1).getD exS1) reach_exS1 (by decide) rfl

end TelemetryController

namespace ExportAsJSON

/-- C2: for a `perform()` on a root whose composition relation is a
finite tree (with distinct identifiers), under every settlement
schedule that completes the walk, the export collaborator is invoked
exactly once, with the document wrapped as the `openmct` envelope
around the accumulated tree, under the filename derived from the root
model's name plus `.json` — and the exported tree maps every node of
the subtree to its model, so the callback fired only after every node
had contributed its entry. -/
theorem claim_C2 (root : DomainObject) (sched : List Nat)
    (hnodup : ((nodes root).map DomainObject.id).Nodup)
    (hdone : (run (exportFilename root) (perform root) sched).tasks = []) :
    (run (exportFilename root) (perform root) sched).exports =
      [(wrap (run (exportFilename root) (perform root) sched).tree,
        root.model.name ++ ".json")] ∧
    ∀ n ∈ nodes root,
      jsLookup (run (exportFilename root) (perform root) sched).tree n.id =
        some n.model := by
  have hinv := ExportInv_run root sched (perform root) (ExportInv_perform root)
  constructor
  · exact hinv.2.2.2.2.1 hdone
  · intro n hn
    rcases hinv.2.1 n hn with hk | ⟨ts, hts, _⟩
    · obtain ⟨v, hv⟩ := Option.isSome_iff_exists.mp hk
      have hpmem := mem_of_jsLookup_eq_some hv
      obtain ⟨n2, hn2, hid, hmodel⟩ := hinv.2.2.2.1 _ hpmem
      have hnn : n2 = n := List.inj_on_of_nodup_map hnodup hn2 hn hid
      have hm2 : n2.model = v := hmodel
      rw [hnn] at hm2
      rw [hv, ← hm2]
    · rw [hdone] at hts
      simp at hts

/-- C2 witness: the theorem applied to the concrete two-child root
`exRoot` and the schedule that settles its single composition fetch. -/
theorem claim_C2_witness :
    ((nodes exRoot).map DomainObject.id).Nodup ∧
    exFinal.tasks = [] ∧
    (exFinal.exports = [(wrap exFinal.tree, exRoot.model.name ++ ".json")] ∧
     ∀ n ∈ nodes exRoot, jsLookup exFinal.tree n.id = some n.model) :=
  ⟨by decide, rfl, claim_C2 exRoot [0] (by decide) rfl⟩

end ExportAsJSON
